import Mathlib

/-!
Verification development for the due-dates browser extension
(deadline ingestion and reconciliation pipeline).

The definitions below are shallow embeddings of the JavaScript source:

* `DeadlineRecord`, `Settings`, `StorageData` model the persisted data
  shapes (part_001 lines 221-240 and section 3 of the design).
  A record's `dueDate` is stored in the source as an ISO timestamp
  string; every comparison in the source first converts it with
  `new Date(...)` to its millisecond value, so the embedding carries
  the millisecond value (an `Int`) directly.
* `handleScrapeResult` models the merge in part_001 lines 537-594.
  The JavaScript `Map` (insertion ordered, keyed by `item.id`) is
  modelled by a `List DeadlineRecord` whose entries play the role of
  the map's values; `mapSet` mirrors `Map.prototype.set` (replace in
  place if the key exists, else append) and `List.find?` mirrors
  `Map.prototype.get`.
* `updateBadge` models the count computed in part_001 lines 646-674.
* `cleanupOldItems` models part_001 lines 796-828.
* `toggleItemDone` models the TOGGLE_ITEM_DONE handler, part_001
  lines 286-299.
* `checkAndSendNotifications` models part_001 lines 684-766; the
  outcome of the `browser.notifications.create` call for a given id is
  abstracted by the oracle `deliver : String -> Bool` (`true` means the
  call returned normally, `false` means it threw).
-/

namespace DueDates

structure Settings where
  notificationsEnabled : Bool
  notificationHours : Int
deriving DecidableEq, Repr

structure DeadlineRecord where
  id : String
  title : String
  dueDate : Int
  course : String
  link : String
  source : String
  done : Bool
  notificationSent : Bool
deriving DecidableEq, Repr

structure StorageData where
  items : List DeadlineRecord
  settings : Settings
deriving DecidableEq, Repr

/-- `mergedItems.sort((a, b) => new Date(a.dueDate) - new Date(b.dueDate))`:
a stable ascending sort by `dueDate`, modelled as stable insertion sort
(JavaScript `Array.prototype.sort` is stable). -/
def insertByDue (r : DeadlineRecord) : List DeadlineRecord → List DeadlineRecord
  | [] => [r]
  | x :: xs => if x.dueDate < r.dueDate then x :: insertByDue r xs else r :: x :: xs

def sortByDue : List DeadlineRecord → List DeadlineRecord
  | [] => []
  | r :: rest => insertByDue r (sortByDue rest)

/-- `Map.prototype.set` on an insertion-ordered map keyed by record id:
if an entry has the key (a JavaScript `Map` holds at most one), replace it
in place, else append. -/
def mapSet : List DeadlineRecord → DeadlineRecord → List DeadlineRecord
  | [], r => [r]
  | a :: xs, r => if a.id == r.id then r :: xs else a :: mapSet xs r

/-- `itemMap.get id`, i.e. the entry with the given key. -/
def mapGet (m : List DeadlineRecord) (id : String) : Option DeadlineRecord :=
  m.find? (fun x => x.id == id)

/-- The flag copy-forward of the merge loop (part_001 lines 555-561):
`if (existingItem && existingItem.notificationSent) newItem.notificationSent = ...;`
`if (existingItem && existingItem.done) newItem.done = ...;` -/
def mergeResult (ex : Option DeadlineRecord) (newItem : DeadlineRecord) : DeadlineRecord :=
  match ex with
  | some existingItem =>
      let a := if existingItem.notificationSent then
                 { newItem with notificationSent := existingItem.notificationSent }
               else newItem
      if existingItem.done then { a with done := existingItem.done } else a
  | none => newItem

/-- The per-incoming-record body of the merge loop in `handleScrapeResult`
(part_001 lines 553-564): look up the existing record by id, copy its
truthy `notificationSent` and `done` onto the incoming record, then `set`. -/
def applyIncoming (m : List DeadlineRecord) (newItem : DeadlineRecord) : List DeadlineRecord :=
  mapSet m (mergeResult (mapGet m newItem.id) newItem)

/-- The merge of `handleScrapeResult` (part_001 lines 537-594): build the
id-keyed map from the existing items, fold the incoming batch through the
flag-preserving upsert, then sort the map's values ascending by due date. -/
def handleScrapeResult (existing newItems : List DeadlineRecord) : List DeadlineRecord :=
  sortByDue (newItems.foldl applyIncoming (existing.foldl mapSet []))

/-- The filter body of `updateBadge` (part_001 lines 652-656):
`dueDate >= now && dueDate <= twentyFourHoursFromNow`. -/
def inBadgeWindow (now : Int) (item : DeadlineRecord) : Bool :=
  decide (now ≤ item.dueDate) && decide (item.dueDate ≤ now + 24 * 60 * 60 * 1000)

/-- The badge count computed by `updateBadge` (part_001 lines 646-674). -/
def updateBadge (items : List DeadlineRecord) (now : Int) : Nat :=
  (items.filter (inBadgeWindow now)).length

/-- Modelled from the spec: the count of records with `dueDate` in the
half-open interval `[now, now + 24h)` that section 4.5 describes; used to
compare the spec's window against the implemented one. -/
def badgeHalfOpenCount (items : List DeadlineRecord) (now : Int) : Nat :=
  (items.filter (fun item =>
    decide (now ≤ item.dueDate) && decide (item.dueDate < now + 24 * 60 * 60 * 1000))).length

/-- `cleanupOldItems` (part_001 lines 796-828): keep the records with
`dueDate >= now - 30 days`. -/
def cleanupOldItems (items : List DeadlineRecord) (now : Int) : List DeadlineRecord :=
  items.filter (fun item => decide (now - 30 * 24 * 60 * 60 * 1000 ≤ item.dueDate))

/-- The TOGGLE_ITEM_DONE handler (part_001 lines 286-299):
`items.map(it => it.id === message.id ? { ...it, done: !!message.done } : it)`. -/
def toggleItemDone (data : StorageData) (id : String) (done : Bool) : StorageData :=
  { data with items := data.items.map (fun it => if it.id == id then { it with done := done } else it) }

/-- The selection filter of `checkAndSendNotifications` (part_001
lines 696-701): due in `[now, cutoff]` and not yet notified. -/
def dueSoonFilter (st : Settings) (now : Int) (item : DeadlineRecord) : Bool :=
  decide (now ≤ item.dueDate) &&
    decide (item.dueDate ≤ now + st.notificationHours * 60 * 60 * 1000) &&
    !item.notificationSent

/-- `updatedItems.findIndex(i => i.id === item.id)` followed by replacing
that entry with `{ ...entry, notificationSent: true }`: mark the first
record with the given id as notified. -/
def markNotified : List DeadlineRecord → String → List DeadlineRecord
  | [], _ => []
  | it :: rest, id =>
      if it.id == id then { it with notificationSent := true } :: rest
      else it :: markNotified rest id

/-- One iteration of the notification loop (part_001 lines 710-761): the
notification is created for `item.id`; if the call returns normally the
record is marked notified and the id recorded as delivered, if it throws
the catch block only logs and the record is left untouched. -/
def notifyStep (deliver : String → Bool) (acc : List DeadlineRecord × List String)
    (item : DeadlineRecord) : List DeadlineRecord × List String :=
  if deliver item.id then (markNotified acc.1 item.id, acc.2 ++ [item.id])
  else (acc.1, acc.2)

structure TickOut where
  items : List DeadlineRecord
  attempted : List String
  delivered : List String
deriving DecidableEq, Repr

/-- `checkAndSendNotifications` (part_001 lines 684-766), with the
notification capability abstracted by `deliver`.  `attempted` lists the
ids the loop tried to notify (`itemsToNotify`), `delivered` the ids for
which the create call returned normally. -/
def checkAndSendNotifications (data : StorageData) (now : Int) (deliver : String → Bool) : TickOut :=
  if data.settings.notificationsEnabled = false then
    ⟨data.items, [], []⟩
  else
    let itemsToNotify := data.items.filter (dueSoonFilter data.settings now)
    let res := itemsToNotify.foldl (notifyStep deliver) (data.items, [])
    ⟨res.1, itemsToNotify.map (fun i => i.id), res.2⟩

/-! ## C5: badge window -/

/-- C5 counterexample: the claim says the badge equals the number of
records with `dueDate` in the half-open interval `[now, now + 24h)`, so a
record due exactly at `now + 24h` should not be counted; `updateBadge`
(which uses `dueDate <= now + 24h`) counts it. -/
theorem updateBadge_closed_at_24h_boundary :
    updateBadge [⟨"a", "HW1", 86400000, "CS", "url", "Gradescope", false, false⟩] 0 = 1 ∧
    badgeHalfOpenCount [⟨"a", "HW1", 86400000, "CS", "url", "Gradescope", false, false⟩] 0 = 0 := by
  constructor <;> rfl

/-- C5 (amended): the badge counts exactly the records with `dueDate` in
the closed interval `[now, now + 24h]`; a record due in exactly 24h plus
1 second is excluded, one due in 23h 59m 59s is included, and one whose
`dueDate` is strictly before `now` is excluded. -/
theorem updateBadge_closed_window (items : List DeadlineRecord) (now : Int) :
    (updateBadge items now =
      (items.filter (fun r => decide (now ≤ r.dueDate ∧ r.dueDate ≤ now + 86400000))).length) ∧
    (∀ r : DeadlineRecord,
      (inBadgeWindow now r = true ↔ now ≤ r.dueDate ∧ r.dueDate ≤ now + 86400000) ∧
      (r.dueDate = now + 86401000 → inBadgeWindow now r = false) ∧
      (r.dueDate = now + 86399000 → inBadgeWindow now r = true) ∧
      (r.dueDate < now → inBadgeWindow now r = false)) := by
  have hwin : ∀ r : DeadlineRecord,
      inBadgeWindow now r = true ↔ now ≤ r.dueDate ∧ r.dueDate ≤ now + 86400000 := by
    intro r
    simp only [inBadgeWindow, Bool.and_eq_true, decide_eq_true_eq]
    norm_num
  constructor
  · unfold updateBadge
    congr 1
    apply List.filter_congr
    intro r _
    by_cases h : now ≤ r.dueDate ∧ r.dueDate ≤ now + 86400000
    · simp [h, (hwin r).2 h]
    · simp only [h, decide_False]
      rw [Bool.eq_false_iff]
      intro hc
      exact h ((hwin r).1 hc)
  · intro r
    refine ⟨hwin r, ?_, ?_, ?_⟩
    · intro h
      rw [Bool.eq_false_iff]
      intro hc
      have := (hwin r).1 hc
      omega
    · intro h
      exact (hwin r).2 (by omega)
    · intro h
      rw [Bool.eq_false_iff]
      intro hc
      have := (hwin r).1 hc
      omega

/-- C5 witness: the amended boundary facts at concrete records. -/
theorem updateBadge_closed_window_witness :
    inBadgeWindow 0 ⟨"a", "t", 86401000, "c", "l", "s", false, false⟩ = false ∧
    inBadgeWindow 0 ⟨"b", "t", 86399000, "c", "l", "s", false, false⟩ = true ∧
    inBadgeWindow 0 ⟨"c", "t", -1, "c", "l", "s", false, false⟩ = false := by
  refine ⟨?_, ?_, ?_⟩
  · exact ((updateBadge_closed_window [] 0).2 ⟨"a", "t", 86401000, "c", "l", "s", false, false⟩).2.1 (by decide)
  · exact ((updateBadge_closed_window [] 0).2 ⟨"b", "t", 86399000, "c", "l", "s", false, false⟩).2.2.1 (by decide)
  · exact ((updateBadge_closed_window [] 0).2 ⟨"c", "t", -1, "c", "l", "s", false, false⟩).2.2.2 (by decide)

/-! ## C8: retention sweep -/

/-- C8: the retention sweep retains exactly the records with
`dueDate >= now - 30 days` (so it removes exactly those whose `dueDate`
strictly precedes `now - 30d`), independently of `done` and
`notificationSent`; a record 31 days past due is removed, one 29 days
past due is retained, and the output is a sublist of the input (retained
records unchanged, in order). -/
theorem cleanupOldItems_spec (items : List DeadlineRecord) (now : Int) :
    (∀ r ∈ items, (r ∈ cleanupOldItems items now ↔ now - 2592000000 ≤ r.dueDate)) ∧
    (∀ r ∈ items, r.dueDate = now - 31 * 86400000 → r ∉ cleanupOldItems items now) ∧
    (∀ r ∈ items, r.dueDate = now - 29 * 86400000 → r ∈ cleanupOldItems items now) ∧
    (cleanupOldItems items now).Sublist items := by
  have hmem : ∀ r : DeadlineRecord, r ∈ items →
      (r ∈ cleanupOldItems items now ↔ now - 2592000000 ≤ r.dueDate) := by
    intro r hr
    unfold cleanupOldItems
    rw [List.mem_filter]
    constructor
    · intro h
      have := h.2
      simp only [decide_eq_true_eq] at this
      omega
    · intro h
      exact ⟨hr, by simp only [decide_eq_true_eq]; omega⟩
  refine ⟨hmem, ?_, ?_, List.filter_sublist items⟩
  · intro r hr hd
    intro hc
    have := (hmem r hr).1 hc
    omega
  · intro r hr hd
    exact (hmem r hr).2 (by omega)

/-- C8 witness: the sweep at `now = 0` on two concrete records, one
31 days past due (removed) and one 29 days past due (retained). -/
theorem cleanupOldItems_spec_witness :
    (⟨"old", "t", -2678400000, "c", "l", "s", true, true⟩ : DeadlineRecord) ∉
      cleanupOldItems [⟨"old", "t", -2678400000, "c", "l", "s", true, true⟩,
        ⟨"new", "t", -2505600000, "c", "l", "s", true, true⟩] 0 ∧
    (⟨"new", "t", -2505600000, "c", "l", "s", true, true⟩ : DeadlineRecord) ∈
      cleanupOldItems [⟨"old", "t", -2678400000, "c", "l", "s", true, true⟩,
        ⟨"new", "t", -2505600000, "c", "l", "s", true, true⟩] 0 := by
  constructor
  · exact (cleanupOldItems_spec _ 0).2.1 _ (by decide) (by decide)
  · exact (cleanupOldItems_spec _ 0).2.2.1 _ (by decide) (by decide)

/-! ## C9: toggle-done is a point update -/

/-- C9: `toggleItemDone` leaves the settings untouched and relates the
old and new item lists pointwise: every field except `done` is unchanged
on every record, and `done` becomes the given value exactly on the
records whose id matches (and is unchanged elsewhere). -/
theorem toggleItemDone_point_update (data : StorageData) (id : String) (v : Bool) :
    (toggleItemDone data id v).settings = data.settings ∧
    List.Forall₂ (fun orig res =>
        res.id = orig.id ∧ res.title = orig.title ∧ res.dueDate = orig.dueDate ∧
        res.course = orig.course ∧ res.link = orig.link ∧ res.source = orig.source ∧
        res.notificationSent = orig.notificationSent ∧
        res.done = (if orig.id = id then v else orig.done))
      data.items (toggleItemDone data id v).items := by
  refine ⟨rfl, ?_⟩
  show List.Forall₂ _ data.items (data.items.map _)
  induction data.items with
  | nil => exact List.Forall₂.nil
  | cons a l ih =>
      refine List.Forall₂.cons ?_ ih
      by_cases h : a.id = id
      · simp [h]
      · simp [h]

/-! ## Association-list lemmas for the reconciliation map -/

theorem mergeResult_id (ex : Option DeadlineRecord) (r : DeadlineRecord) :
    (mergeResult ex r).id = r.id := by
  cases ex with
  | none => rfl
  | some e =>
      by_cases hns : e.notificationSent <;> by_cases hd : e.done <;>
        simp [mergeResult, hns, hd]

theorem mergeResult_fields (e r : DeadlineRecord) :
    (mergeResult (some e) r).id = r.id ∧
    (mergeResult (some e) r).title = r.title ∧
    (mergeResult (some e) r).dueDate = r.dueDate ∧
    (mergeResult (some e) r).course = r.course ∧
    (mergeResult (some e) r).link = r.link ∧
    (mergeResult (some e) r).source = r.source ∧
    (mergeResult (some e) r).done = (r.done || e.done) ∧
    (mergeResult (some e) r).notificationSent = (r.notificationSent || e.notificationSent) := by
  by_cases hns : e.notificationSent <;> by_cases hd : e.done <;>
    simp [mergeResult, hns, hd]

theorem mergeResult_self (x : DeadlineRecord) : mergeResult (some x) x = x := by
  cases x with
  | mk id title dueDate course link source done notificationSent =>
      by_cases hns : notificationSent <;> by_cases hd : done <;>
        simp [mergeResult, hns, hd]

theorem find?_mapSet_self (m : List DeadlineRecord) (r : DeadlineRecord) :
    (mapSet m r).find? (fun x => x.id == r.id) = some r := by
  induction m with
  | nil => simp [mapSet]
  | cons a xs ih =>
      by_cases ha : (a.id == r.id) = true
      · simp [mapSet, ha, List.find?_cons]
      · have ha' : (a.id == r.id) = false := by
          rwa [Bool.not_eq_true] at ha
        simp only [mapSet, ha', Bool.false_eq_true, if_false]
        rw [List.find?_cons, ha']
        exact ih

theorem find?_mapSet_other (m : List DeadlineRecord) (r : DeadlineRecord) (k : String)
    (h : k ≠ r.id) :
    (mapSet m r).find? (fun x => x.id == k) = m.find? (fun x => x.id == k) := by
  have hrk : (r.id == k) = false := by
    simp only [beq_eq_false_iff_ne, ne_eq]
    exact fun hc => h hc.symm
  induction m with
  | nil => simp [mapSet, List.find?_cons, hrk]
  | cons a xs ih =>
      by_cases ha : (a.id == r.id) = true
      · have hak : (a.id == k) = false := by
          simp only [beq_iff_eq] at ha
          simp only [beq_eq_false_iff_ne, ne_eq, ha]
          exact fun hc => h hc.symm
        simp only [mapSet, ha, if_true]
        rw [List.find?_cons, hrk, List.find?_cons, hak]
      · have ha' : (a.id == r.id) = false := by
          rwa [Bool.not_eq_true] at ha
        simp only [mapSet, ha', Bool.false_eq_true, if_false]
        rw [List.find?_cons, List.find?_cons]
        cases hak : (a.id == k) with
        | true => rfl
        | false => exact ih

theorem applyIncoming_find_other (m : List DeadlineRecord) (n : DeadlineRecord) (k : String)
    (h : k ≠ n.id) :
    (applyIncoming m n).find? (fun x => x.id == k) = m.find? (fun x => x.id == k) := by
  unfold applyIncoming
  rw [find?_mapSet_other]
  rw [mergeResult_id]
  exact h

theorem applyIncoming_find_self (m : List DeadlineRecord) (n : DeadlineRecord) :
    (applyIncoming m n).find? (fun x => x.id == n.id) =
      some (mergeResult (mapGet m n.id) n) := by
  unfold applyIncoming
  have := find?_mapSet_self m (mergeResult (mapGet m n.id) n)
  rw [mergeResult_id] at this
  exact this

theorem foldl_applyIncoming_skip (l : List DeadlineRecord) (k : String)
    (h : ∀ y ∈ l, y.id ≠ k) :
    ∀ m : List DeadlineRecord,
      (l.foldl applyIncoming m).find? (fun x => x.id == k) = m.find? (fun x => x.id == k) := by
  induction l with
  | nil => intro m; rfl
  | cons a xs ih =>
      intro m
      have ha : a.id ≠ k := h a (List.mem_cons_self a xs)
      rw [List.foldl_cons, ih (fun y hy => h y (List.mem_cons_of_mem a hy))]
      exact applyIncoming_find_other m a k (fun hc => ha hc.symm)

theorem find?_self_of_nodup (l : List DeadlineRecord)
    (h : (l.map (fun x => x.id)).Nodup) (ex : DeadlineRecord) (hmem : ex ∈ l) :
    l.find? (fun x => x.id == ex.id) = some ex := by
  induction l with
  | nil => cases hmem
  | cons a xs ih =>
      rcases List.mem_cons.1 hmem with h1 | h1
      · subst h1
        rw [List.find?_cons]
        simp
      · have hnd := h
        simp only [List.map_cons, List.nodup_cons] at hnd
        have ha : (a.id == ex.id) = false := by
          simp only [beq_eq_false_iff_ne, ne_eq]
          intro hc
          exact hnd.1 (hc ▸ List.mem_map_of_mem (fun x => x.id) h1)
        rw [List.find?_cons, ha]
        exact ih hnd.2 h1

theorem id_determined (l : List DeadlineRecord) (h : (l.map (fun x => x.id)).Nodup)
    (x y : DeadlineRecord) (hx : x ∈ l) (hy : y ∈ l) (hid : x.id = y.id) : x = y := by
  have h1 := find?_self_of_nodup l h x hx
  have h2 := find?_self_of_nodup l h y hy
  rw [hid] at h1
  rw [h1] at h2
  exact Option.some_injective _ h2

theorem mapSet_append_of_fresh (m : List DeadlineRecord) (r : DeadlineRecord)
    (h : ∀ y ∈ m, y.id ≠ r.id) : mapSet m r = m ++ [r] := by
  induction m with
  | nil => rfl
  | cons a xs ih =>
      have ha : (a.id == r.id) = false := by
        simp only [beq_eq_false_iff_ne, ne_eq]
        exact h a (List.mem_cons_self a xs)
      simp only [mapSet, ha, Bool.false_eq_true, if_false, List.cons_append]
      rw [ih (fun y hy => h y (List.mem_cons_of_mem a hy))]

theorem mapSet_self_mem (l : List DeadlineRecord) (h : (l.map (fun x => x.id)).Nodup)
    (x : DeadlineRecord) (hx : x ∈ l) : mapSet l x = l := by
  induction l with
  | nil => cases hx
  | cons a xs ih =>
      have hnd := h
      simp only [List.map_cons, List.nodup_cons] at hnd
      rcases List.mem_cons.1 hx with h1 | h1
      · subst h1
        simp [mapSet]
      · have ha : (a.id == x.id) = false := by
          simp only [beq_eq_false_iff_ne, ne_eq]
          intro hc
          exact hnd.1 (hc ▸ List.mem_map_of_mem (fun y => y.id) h1)
        simp only [mapSet, ha, Bool.false_eq_true, if_false]
        rw [ih hnd.2 h1]

theorem foldl_mapSet_fresh (l : List DeadlineRecord) (hnd : (l.map (fun x => x.id)).Nodup) :
    ∀ m : List DeadlineRecord, (∀ x ∈ l, ∀ y ∈ m, y.id ≠ x.id) →
      l.foldl mapSet m = m ++ l := by
  induction l with
  | nil => intro m _; simp
  | cons a xs ih =>
      intro m hfresh
      have hnd' := hnd
      simp only [List.map_cons, List.nodup_cons] at hnd'
      have hset : mapSet m a = m ++ [a] :=
        mapSet_append_of_fresh m a (fun y hy => hfresh a (List.mem_cons_self a xs) y hy)
      rw [List.foldl_cons, hset, ih hnd'.2]
      · simp
      · intro x hx y hy
        rcases List.mem_append.1 hy with h1 | h1
        · exact hfresh x (List.mem_cons_of_mem a hx) y h1
        · rcases List.mem_singleton.1 h1 with rfl
          intro hc
          exact hnd'.1 (hc ▸ List.mem_map_of_mem (fun x => x.id) hx)

theorem foldl_applyIncoming_find (l : List DeadlineRecord)
    (hnd : (l.map (fun x => x.id)).Nodup) (r : DeadlineRecord) (hr : r ∈ l) :
    ∀ m : List DeadlineRecord,
      (l.foldl applyIncoming m).find? (fun x => x.id == r.id) =
        some (mergeResult (m.find? (fun x => x.id == r.id)) r) := by
  induction l with
  | nil => cases hr
  | cons a xs ih =>
      intro m
      have hnd' := hnd
      simp only [List.map_cons, List.nodup_cons] at hnd'
      rcases List.mem_cons.1 hr with h1 | h1
      · subst h1
        rw [List.foldl_cons]
        rw [foldl_applyIncoming_skip xs r.id ?hskip (applyIncoming m r)]
        · exact applyIncoming_find_self m r
        case hskip =>
          intro y hy hc
          exact hnd'.1 (hc ▸ List.mem_map_of_mem (fun x => x.id) hy)
      · have ha : a.id ≠ r.id := by
          intro hc
          exact hnd'.1 (hc ▸ List.mem_map_of_mem (fun x => x.id) h1)
        rw [List.foldl_cons, ih hnd'.2 h1 (applyIncoming m a)]
        rw [applyIncoming_find_other m a r.id (fun hc => ha hc.symm)]

/-! ## Sorting lemmas -/

theorem insertByDue_perm (r : DeadlineRecord) (l : List DeadlineRecord) :
    (insertByDue r l).Perm (r :: l) := by
  induction l with
  | nil => rfl
  | cons x xs ih =>
      unfold insertByDue
      by_cases h : x.dueDate < r.dueDate
      · simp only [h, if_true]
        exact (ih.cons x).trans (List.Perm.swap r x xs)
      · simp [h]

theorem sortByDue_perm (l : List DeadlineRecord) : (sortByDue l).Perm l := by
  induction l with
  | nil => rfl
  | cons x xs ih =>
      unfold sortByDue
      exact (insertByDue_perm x (sortByDue xs)).trans (ih.cons x)

theorem mem_sortByDue (l : List DeadlineRecord) (x : DeadlineRecord) :
    x ∈ sortByDue l ↔ x ∈ l :=
  (sortByDue_perm l).mem_iff

/-! ## C1: sticky-field preservation -/

/-- C1: in `handleScrapeResult`, an incoming record whose id matches an
existing record merges so that `done`/`notificationSent` are the logical
or of incoming and existing flags (hence `true` whenever the existing
record had them `true`), every other field is taken from the incoming
record, and an incoming record with an unmatched id is inserted as-is. -/
theorem handleScrapeResult_sticky (existing incoming : List DeadlineRecord)
    (hE : (existing.map (fun x => x.id)).Nodup)
    (hI : (incoming.map (fun x => x.id)).Nodup) :
    ∀ r ∈ incoming,
      (∀ ex ∈ existing, ex.id = r.id →
        ∃ g ∈ handleScrapeResult existing incoming,
          g.id = r.id ∧ g.title = r.title ∧ g.dueDate = r.dueDate ∧ g.course = r.course ∧
          g.link = r.link ∧ g.source = r.source ∧
          g.done = (r.done || ex.done) ∧
          g.notificationSent = (r.notificationSent || ex.notificationSent)) ∧
      ((∀ ex ∈ existing, ex.id ≠ r.id) → r ∈ handleScrapeResult existing incoming) := by
  intro r hr
  have hbuild : existing.foldl mapSet [] = existing := by
    have := foldl_mapSet_fresh existing hE []
    simpa using this
  have hfind := foldl_applyIncoming_find incoming hI r hr (existing.foldl mapSet [])
  rw [hbuild] at hfind
  constructor
  · intro ex hex hid
    have hfe : existing.find? (fun x => x.id == r.id) = some ex := by
      have := find?_self_of_nodup existing hE ex hex
      rw [hid] at this
      exact this
    rw [hfe] at hfind
    refine ⟨mergeResult (some ex) r, ?_, ?_⟩
    · unfold handleScrapeResult
      rw [mem_sortByDue, hbuild]
      exact List.mem_of_find?_eq_some hfind
    · exact mergeResult_fields ex r
  · intro hnone
    have hfe : existing.find? (fun x => x.id == r.id) = none := by
      rw [List.find?_eq_none]
      intro x hx
      simp only [beq_iff_eq]
      exact hnone x hx
    rw [hfe] at hfind
    unfold handleScrapeResult
    rw [mem_sortByDue, hbuild]
    exact List.mem_of_find?_eq_some hfind

/-- C1 witness: the end-to-end scenario of section 8 — an incoming record
with `done=false` against an existing `done=true`, `notificationSent=true`
record with the same id keeps both flags and takes the incoming title. -/
theorem handleScrapeResult_sticky_witness :
    ∃ g ∈ handleScrapeResult
        [⟨"a", "HW1 (old)", 1000, "CS", "url", "Gradescope", true, true⟩]
        [⟨"a", "HW1", 1000, "CS", "url", "Gradescope", false, false⟩],
      g.id = "a" ∧ g.title = "HW1" ∧ g.dueDate = 1000 ∧ g.course = "CS" ∧
      g.link = "url" ∧ g.source = "Gradescope" ∧
      g.done = (false || true) ∧ g.notificationSent = (false || true) := by
  have h := handleScrapeResult_sticky
      [⟨"a", "HW1 (old)", 1000, "CS", "url", "Gradescope", true, true⟩]
      [⟨"a", "HW1", 1000, "CS", "url", "Gradescope", false, false⟩]
      (by simp) (by simp)
      ⟨"a", "HW1", 1000, "CS", "url", "Gradescope", false, false⟩ (by simp)
  exact (h.1 ⟨"a", "HW1 (old)", 1000, "CS", "url", "Gradescope", true, true⟩ (by simp) rfl)

/-! ## C2: idempotent reconciliation -/

/-- C2: reconciling a well-formed collection (pairwise-distinct ids)
against itself returns exactly the collection re-sorted ascending by due
date; in particular the result is a permutation of the input with every
record unchanged. -/
theorem handleScrapeResult_idempotent (X : List DeadlineRecord)
    (h : (X.map (fun x => x.id)).Nodup) :
    handleScrapeResult X X = sortByDue X ∧ (handleScrapeResult X X).Perm X := by
  have hbuild : X.foldl mapSet [] = X := by
    have := foldl_mapSet_fresh X h []
    simpa using this
  have hstep : ∀ x ∈ X, applyIncoming X x = X := by
    intro x hx
    unfold applyIncoming mapGet
    rw [find?_self_of_nodup X h x hx, mergeResult_self]
    exact mapSet_self_mem X h x hx
  have hfold : ∀ l : List DeadlineRecord, (∀ x ∈ l, x ∈ X) → l.foldl applyIncoming X = X := by
    intro l
    induction l with
    | nil => intro _; rfl
    | cons a xs ih =>
        intro hsub
        rw [List.foldl_cons, hstep a (hsub a (List.mem_cons_self a xs))]
        exact ih (fun x hx => hsub x (List.mem_cons_of_mem a hx))
  have : handleScrapeResult X X = sortByDue X := by
    unfold handleScrapeResult
    rw [hbuild, hfold X (fun x hx => hx)]
  exact ⟨this, this ▸ sortByDue_perm X⟩

/-- C2 witness: idempotence on a concrete two-record collection. -/
theorem handleScrapeResult_idempotent_witness :
    handleScrapeResult
        [⟨"a", "HW1", 2000, "CS", "u1", "Gradescope", true, false⟩,
         ⟨"b", "HW2", 1000, "CS", "u2", "PrairieLearn", false, true⟩]
        [⟨"a", "HW1", 2000, "CS", "u1", "Gradescope", true, false⟩,
         ⟨"b", "HW2", 1000, "CS", "u2", "PrairieLearn", false, true⟩] =
      sortByDue
        [⟨"a", "HW1", 2000, "CS", "u1", "Gradescope", true, false⟩,
         ⟨"b", "HW2", 1000, "CS", "u2", "PrairieLearn", false, true⟩] :=
  (handleScrapeResult_idempotent _ (by simp)).1

/-! ## Notification-tick lemmas -/

/-- The pointwise relation between an item list before and after one
scheduler pass: every field except `notificationSent` is unchanged, and
the flag is set exactly when it already was or the id satisfies `cond`. -/
def TickRel (cond : String → Prop) (o r : DeadlineRecord) : Prop :=
  r.id = o.id ∧ r.title = o.title ∧ r.dueDate = o.dueDate ∧ r.course = o.course ∧
  r.link = o.link ∧ r.source = o.source ∧ r.done = o.done ∧
  (r.notificationSent = true ↔ (o.notificationSent = true ∨ cond o.id))

theorem forall₂_refl_of (cond : String → Prop) (l : List DeadlineRecord)
    (h : ∀ o ∈ l, ¬ cond o.id) : List.Forall₂ (TickRel cond) l l := by
  induction l with
  | nil => exact List.Forall₂.nil
  | cons a xs ih =>
      refine List.Forall₂.cons ?_ (ih (fun o ho => h o (List.mem_cons_of_mem a ho)))
      refine ⟨rfl, rfl, rfl, rfl, rfl, rfl, rfl, ?_⟩
      constructor
      · exact fun hh => Or.inl hh
      · intro hh
        rcases hh with hh | hh
        · exact hh
        · exact absurd hh (h a (List.mem_cons_self a xs))

theorem forall₂_tickRel_trans (c1 c2 : String → Prop) :
    ∀ {l1 l2 l3 : List DeadlineRecord}, List.Forall₂ (TickRel c1) l1 l2 →
      List.Forall₂ (TickRel c2) l2 l3 →
      List.Forall₂ (TickRel (fun k => c1 k ∨ c2 k)) l1 l3 := by
  intro l1 l2 l3 h12 h23
  induction h12 generalizing l3 with
  | nil => cases h23; exact List.Forall₂.nil
  | @cons a b la lb hab htail ih =>
      cases h23 with
      | @cons _ c _ lc hbc htail2 =>
          refine List.Forall₂.cons ?_ (ih htail2)
          obtain ⟨i1, t1, d1, co1, li1, s1, dn1, n1⟩ := hab
          obtain ⟨i2, t2, d2, co2, li2, s2, dn2, n2⟩ := hbc
          refine ⟨i2.trans i1, t2.trans t1, d2.trans d1, co2.trans co1,
            li2.trans li1, s2.trans s1, dn2.trans dn1, ?_⟩
          rw [n2, n1, i1]
          constructor
          · rintro ((h | h) | h)
            · exact Or.inl h
            · exact Or.inr (Or.inl h)
            · exact Or.inr (Or.inr h)
          · rintro (h | (h | h))
            · exact Or.inl (Or.inl h)
            · exact Or.inl (Or.inr h)
            · exact Or.inr h


theorem tickRel_congr (c1 c2 : String → Prop) (h : ∀ k, c1 k ↔ c2 k)
    (o r : DeadlineRecord) : TickRel c1 o r → TickRel c2 o r := by
  intro ⟨i, t, d, co, li, s, dn, n⟩
  exact ⟨i, t, d, co, li, s, dn, by rw [n, h o.id]⟩

theorem forall₂_partner {R : DeadlineRecord → DeadlineRecord → Prop} :
    ∀ {l l' : List DeadlineRecord}, List.Forall₂ R l l' → ∀ r ∈ l, ∃ g ∈ l', R r g := by
  intro l l' h
  induction h with
  | nil => intro r hr; cases hr
  | @cons a b la lb hab _ ih =>
      intro r hr
      rcases List.mem_cons.1 hr with h1 | h1
      · exact ⟨b, List.mem_cons_self b lb, h1 ▸ hab⟩
      · obtain ⟨g, hg, hrg⟩ := ih r h1
        exact ⟨g, List.mem_cons_of_mem b hg, hrg⟩

theorem markNotified_ids (l : List DeadlineRecord) (id : String) :
    (markNotified l id).map (fun x => x.id) = l.map (fun x => x.id) := by
  induction l with
  | nil => rfl
  | cons a xs ih =>
      by_cases ha : (a.id == id) = true
      · simp [markNotified, ha]
      · have ha' : (a.id == id) = false := by rwa [Bool.not_eq_true] at ha
        simp only [markNotified, ha', Bool.false_eq_true, if_false, List.map_cons]
        rw [ih]

theorem markNotified_forall₂ (l : List DeadlineRecord) (id : String)
    (h : (l.map (fun x => x.id)).Nodup) :
    List.Forall₂ (TickRel (fun k => k = id)) l (markNotified l id) := by
  induction l with
  | nil => exact List.Forall₂.nil
  | cons a xs ih =>
      have hnd := h
      simp only [List.map_cons, List.nodup_cons] at hnd
      by_cases ha : (a.id == id) = true
      · have haid : a.id = id := by simpa using ha
        simp only [markNotified, ha, if_true]
        refine List.Forall₂.cons ⟨rfl, rfl, rfl, rfl, rfl, rfl, rfl, ?_⟩ ?_
        · simp [haid]
        · refine forall₂_refl_of _ xs ?_
          intro o ho hc
          exact hnd.1 ((haid.trans hc.symm) ▸ List.mem_map_of_mem (fun x => x.id) ho)
      · have ha' : (a.id == id) = false := by rwa [Bool.not_eq_true] at ha
        simp only [markNotified, ha', Bool.false_eq_true, if_false]
        refine List.Forall₂.cons ⟨rfl, rfl, rfl, rfl, rfl, rfl, rfl, ?_⟩ (ih hnd.2)
        have hne : ¬ a.id = id := by simpa using ha'
        simp [hne]

/-- The first component of the notification loop's fold: the item list
after marking every successfully delivered id. -/
def markFold (deliver : String → Bool) (toN : List DeadlineRecord)
    (its : List DeadlineRecord) : List DeadlineRecord :=
  toN.foldl (fun its2 x => if deliver x.id then markNotified its2 x.id else its2) its

theorem notifyStep_fst (deliver : String → Bool) :
    ∀ (toN : List DeadlineRecord) (its : List DeadlineRecord) (acc : List String),
      (toN.foldl (notifyStep deliver) (its, acc)).1 = markFold deliver toN its := by
  intro toN
  induction toN with
  | nil => intro its acc; rfl
  | cons x xs ih =>
      intro its acc
      by_cases hdel : deliver x.id = true
      · simp only [List.foldl_cons, notifyStep, hdel, if_true, markFold]
        exact ih _ _
      · have hdel' : deliver x.id = false := by rwa [Bool.not_eq_true] at hdel
        simp only [List.foldl_cons, notifyStep, hdel', Bool.false_eq_true, if_false, markFold]
        exact ih _ _

theorem markFold_forall₂ (deliver : String → Bool) :
    ∀ (toN : List DeadlineRecord) (its : List DeadlineRecord),
      (its.map (fun x => x.id)).Nodup →
      List.Forall₂
        (TickRel (fun k => k ∈ (toN.filter (fun x => deliver x.id)).map (fun x => x.id)))
        its (markFold deliver toN its) := by
  intro toN
  induction toN with
  | nil =>
      intro its h
      refine forall₂_refl_of _ its ?_
      intro o _ hc
      simp at hc
  | cons x xs ih =>
      intro its h
      by_cases hdel : deliver x.id = true
      · have h1 := markNotified_forall₂ its x.id h
        have hnd2 : ((markNotified its x.id).map (fun y => y.id)).Nodup := by
          rw [markNotified_ids]; exact h
        have h2 := ih (markNotified its x.id) hnd2
        have h12 := forall₂_tickRel_trans _ _ h1 h2
        have hstep : markFold deliver (x :: xs) its = markFold deliver xs (markNotified its x.id) := by
          simp [markFold, List.foldl_cons, hdel]
        rw [hstep]
        refine List.Forall₂.imp (tickRel_congr _ _ ?_) h12
        intro k
        simp only [List.filter_cons, hdel, if_true, List.map_cons, List.mem_cons]
      · have hdel' : deliver x.id = false := by rwa [Bool.not_eq_true] at hdel
        have hstep : markFold deliver (x :: xs) its = markFold deliver xs its := by
          simp [markFold, List.foldl_cons, hdel']
        rw [hstep]
        refine List.Forall₂.imp (tickRel_congr _ _ ?_) (ih its h)
        intro k
        simp only [List.filter_cons, hdel', Bool.false_eq_true, if_false]

/-- Pointwise characterisation of one scheduler tick: every field except
`notificationSent` is unchanged on every record, and `notificationSent`
becomes `true` exactly on the records that already had it or that were
selected and successfully delivered. -/
theorem checkAndSend_items_char (data : StorageData) (now : Int) (deliver : String → Bool)
    (h : (data.items.map (fun x => x.id)).Nodup) :
    List.Forall₂
      (TickRel (fun k => data.settings.notificationsEnabled = true ∧
        k ∈ (((data.items.filter (dueSoonFilter data.settings now)).filter
              (fun x => deliver x.id)).map (fun x => x.id))))
      data.items (checkAndSendNotifications data now deliver).items := by
  by_cases hen : data.settings.notificationsEnabled = false
  · have hsame : (checkAndSendNotifications data now deliver).items = data.items := by
      simp [checkAndSendNotifications, hen]
    rw [hsame]
    refine forall₂_refl_of _ data.items ?_
    intro o _ hc
    rw [hen] at hc
    exact absurd hc.1 (by simp)
  · have hen' : data.settings.notificationsEnabled = true := by
      rwa [Bool.not_eq_false] at hen
    have hitems : (checkAndSendNotifications data now deliver).items =
        markFold deliver (data.items.filter (dueSoonFilter data.settings now)) data.items := by
      simp only [checkAndSendNotifications, hen', Bool.true_eq_false, if_false]
      exact notifyStep_fst deliver _ data.items []
    rw [hitems]
    refine List.Forall₂.imp (tickRel_congr _ _ ?_)
      (markFold_forall₂ deliver (data.items.filter (dueSoonFilter data.settings now)) data.items h)
    intro k
    simp [hen']

theorem tick_cond_iff (data : StorageData) (now : Int) (deliver : String → Bool)
    (h : (data.items.map (fun x => x.id)).Nodup) (o : DeadlineRecord) (ho : o ∈ data.items) :
    o.id ∈ (((data.items.filter (dueSoonFilter data.settings now)).filter
        (fun x => deliver x.id)).map (fun x => x.id)) ↔
      (dueSoonFilter data.settings now o = true ∧ deliver o.id = true) := by
  constructor
  · intro hmem
    obtain ⟨x, hx, hxid⟩ := List.mem_map.1 hmem
    have hx1 := List.mem_filter.1 hx
    have hx2 := List.mem_filter.1 hx1.1
    have hxo : x = o := id_determined data.items h x o hx2.1 ho hxid
    subst hxo
    exact ⟨hx2.2, hx1.2⟩
  · intro ⟨hds, hdel⟩
    refine List.mem_map.2 ⟨o, ?_, rfl⟩
    exact List.mem_filter.2 ⟨List.mem_filter.2 ⟨ho, hds⟩, hdel⟩

theorem tick_attempted_eq (data : StorageData) (now : Int) (deliver : String → Bool) :
    (checkAndSendNotifications data now deliver).attempted =
      (if data.settings.notificationsEnabled = true then
        (data.items.filter (dueSoonFilter data.settings now)).map (fun x => x.id) else []) := by
  by_cases hen : data.settings.notificationsEnabled = false
  · simp [checkAndSendNotifications, hen]
  · have hen' : data.settings.notificationsEnabled = true := by
      rwa [Bool.not_eq_false] at hen
    simp [checkAndSendNotifications, hen']

/-! ## C3: notification no-repeat -/

/-- C3: once a record has `notificationSent = true` it stays `true` and is
never re-notified: (1) a scheduler tick keeps the flag `true` on the
record with that id and does not even attempt a notification for it
(regardless of the due-soon window); (2) reconciling any incoming batch
keeps a `true` flag on that id; (3) a retention sweep that retains the
record keeps it unchanged, flag included. -/
theorem notificationSent_no_repeat :
    (∀ (data : StorageData) (now : Int) (deliver : String → Bool),
      (data.items.map (fun x => x.id)).Nodup →
      ∀ r ∈ data.items, r.notificationSent = true →
        (∃ g ∈ (checkAndSendNotifications data now deliver).items,
            g.id = r.id ∧ g.notificationSent = true ∧ g.dueDate = r.dueDate) ∧
        r.id ∉ (checkAndSendNotifications data now deliver).attempted) ∧
    (∀ (existing incoming : List DeadlineRecord),
      (existing.map (fun x => x.id)).Nodup → (incoming.map (fun x => x.id)).Nodup →
      ∀ ex ∈ existing, ex.notificationSent = true →
        ∃ g ∈ handleScrapeResult existing incoming,
          g.id = ex.id ∧ g.notificationSent = true) ∧
    (∀ (items : List DeadlineRecord) (now : Int),
      ∀ r ∈ items, r.notificationSent = true → now - 2592000000 ≤ r.dueDate →
        r ∈ cleanupOldItems items now) := by
  refine ⟨?_, ?_, ?_⟩
  · intro data now deliver h r hr hsent
    constructor
    · obtain ⟨g, hg, rel⟩ := forall₂_partner (checkAndSend_items_char data now deliver h) r hr
      exact ⟨g, hg, rel.1, (rel.2.2.2.2.2.2.2).2 (Or.inl hsent), rel.2.2.1⟩
    · rw [tick_attempted_eq]
      by_cases hen : data.settings.notificationsEnabled = true
      · rw [if_pos hen]
        intro hmem
        obtain ⟨x, hx, hxid⟩ := List.mem_map.1 hmem
        have hx1 := List.mem_filter.1 hx
        have hxo : x = r := id_determined data.items h x r hx1.1 hr hxid
        subst hxo
        have := hx1.2
        simp [dueSoonFilter, hsent] at this
      · rw [if_neg hen]
        exact List.not_mem_nil r.id
  · intro existing incoming hE hI ex hex hsent
    have hbuild : existing.foldl mapSet [] = existing := by
      have := foldl_mapSet_fresh existing hE []
      simpa using this
    by_cases hin : ∃ rr ∈ incoming, rr.id = ex.id
    · obtain ⟨rr, hrr, hid⟩ := hin
      have hfind := foldl_applyIncoming_find incoming hI rr hrr (existing.foldl mapSet [])
      rw [hbuild] at hfind
      have hfe : existing.find? (fun x => x.id == rr.id) = some ex := by
        have := find?_self_of_nodup existing hE ex hex
        rw [← hid] at this
        exact this
      rw [hfe] at hfind
      refine ⟨mergeResult (some ex) rr, ?_, ?_, ?_⟩
      · unfold handleScrapeResult
        rw [mem_sortByDue, hbuild]
        exact List.mem_of_find?_eq_some hfind
      · rw [(mergeResult_fields ex rr).1, hid]
      · rw [(mergeResult_fields ex rr).2.2.2.2.2.2.2, hsent, Bool.or_true]
    · push_neg at hin
      have hskip := foldl_applyIncoming_skip incoming ex.id hin (existing.foldl mapSet [])
      rw [hbuild, find?_self_of_nodup existing hE ex hex] at hskip
      refine ⟨ex, ?_, rfl, hsent⟩
      unfold handleScrapeResult
      rw [mem_sortByDue, hbuild]
      exact List.mem_of_find?_eq_some hskip
  · intro items now r hr _ hdate
    refine List.mem_filter.2 ⟨hr, ?_⟩
    simp only [decide_eq_true_eq]
    omega

/-- C3 witness: the three parts applied at concrete inputs. -/
theorem notificationSent_no_repeat_witness :
    ((∃ g ∈ (checkAndSendNotifications
          ⟨[⟨"a", "HW", 1000, "CS", "u", "G", false, true⟩], ⟨true, 1⟩⟩ 0
          (fun _ => true)).items,
        g.id = "a" ∧ g.notificationSent = true ∧ g.dueDate = 1000) ∧
      "a" ∉ (checkAndSendNotifications
          ⟨[⟨"a", "HW", 1000, "CS", "u", "G", false, true⟩], ⟨true, 1⟩⟩ 0
          (fun _ => true)).attempted) ∧
    (∃ g ∈ handleScrapeResult
        [⟨"a", "HW", 1000, "CS", "u", "G", false, true⟩]
        [⟨"a", "HW2", 2000, "CS", "u", "G", false, false⟩],
      g.id = "a" ∧ g.notificationSent = true) ∧
    (⟨"a", "HW", 1000, "CS", "u", "G", false, true⟩ : DeadlineRecord) ∈
      cleanupOldItems [⟨"a", "HW", 1000, "CS", "u", "G", false, true⟩] 0 := by
  refine ⟨?_, ?_, ?_⟩
  · exact notificationSent_no_repeat.1
      ⟨[⟨"a", "HW", 1000, "CS", "u", "G", false, true⟩], ⟨true, 1⟩⟩ 0 (fun _ => true)
      (by decide) ⟨"a", "HW", 1000, "CS", "u", "G", false, true⟩ (by decide) rfl
  · exact notificationSent_no_repeat.2.1
      [⟨"a", "HW", 1000, "CS", "u", "G", false, true⟩]
      [⟨"a", "HW2", 2000, "CS", "u", "G", false, false⟩]
      (by decide) (by decide) ⟨"a", "HW", 1000, "CS", "u", "G", false, true⟩ (by decide) rfl
  · exact notificationSent_no_repeat.2.2
      [⟨"a", "HW", 1000, "CS", "u", "G", false, true⟩] 0
      ⟨"a", "HW", 1000, "CS", "u", "G", false, true⟩ (by decide) rfl (by decide)

/-! ## C4: per-record delivery failure -/

/-- C4 counterexample: the claim says a selected record whose delivery
fails still ends up with `notificationSent = true` (no retry).  In the
code the flag assignment sits after the `await create` inside the `try`,
so a throwing delivery skips it: with one due-soon record and a failing
delivery capability, the record was attempted but its flag stays `false`. -/
theorem checkAndSend_failed_delivery_not_marked :
    checkAndSendNotifications
        ⟨[⟨"a", "HW", 0, "CS", "u", "G", false, false⟩], ⟨true, 1⟩⟩ 0 (fun _ => false) =
      ⟨[⟨"a", "HW", 0, "CS", "u", "G", false, false⟩], ["a"], []⟩ := by
  rfl

/-- C4 (amended): a per-record delivery failure is caught locally and does
not block the other records — every selected record with a succeeding
delivery still gets `notificationSent = true` — but the failed record's
flag remains `false` (the assignment after the throwing `await` is
skipped), it still satisfies the due-soon filter, and the next tick
attempts it again. -/
theorem tick_failure_isolated (data : StorageData) (now : Int) (deliver : String → Bool)
    (h : (data.items.map (fun x => x.id)).Nodup) :
    (∀ r ∈ data.items, data.settings.notificationsEnabled = true →
       dueSoonFilter data.settings now r = true → deliver r.id = true →
       ∃ g ∈ (checkAndSendNotifications data now deliver).items,
         g.id = r.id ∧ g.notificationSent = true) ∧
    (∀ r ∈ data.items, data.settings.notificationsEnabled = true →
       dueSoonFilter data.settings now r = true → deliver r.id = false →
       ∃ g ∈ (checkAndSendNotifications data now deliver).items,
         g.id = r.id ∧ g.notificationSent = false ∧
         dueSoonFilter data.settings now g = true ∧
         g.id ∈ (checkAndSendNotifications
             ⟨(checkAndSendNotifications data now deliver).items, data.settings⟩
             now deliver).attempted) := by
  constructor
  · intro r hr hen hds hdel
    obtain ⟨g, hg, rel⟩ := forall₂_partner (checkAndSend_items_char data now deliver h) r hr
    refine ⟨g, hg, rel.1, ?_⟩
    exact (rel.2.2.2.2.2.2.2).2
      (Or.inr ⟨hen, (tick_cond_iff data now deliver h r hr).2 ⟨hds, hdel⟩⟩)
  · intro r hr hen hds hdel
    obtain ⟨g, hg, rel⟩ := forall₂_partner (checkAndSend_items_char data now deliver h) r hr
    have hrns : r.notificationSent = false := by
      rcases Bool.eq_false_or_eq_true r.notificationSent with hh | hh
      · simp [dueSoonFilter, hh] at hds
      · exact hh
    have hgns : g.notificationSent = false := by
      rcases Bool.eq_false_or_eq_true g.notificationSent with hh | hh
      · rcases (rel.2.2.2.2.2.2.2).1 hh with hc | hc
        · rw [hrns] at hc; cases hc
        · have := (tick_cond_iff data now deliver h r hr).1 hc.2
          rw [hdel] at this
          cases this.2
      · exact hh
    have hgds : dueSoonFilter data.settings now g = true := by
      simp only [dueSoonFilter, Bool.and_eq_true, decide_eq_true_eq] at hds ⊢
      rw [rel.2.2.1, hgns]
      exact ⟨⟨hds.1.1, hds.1.2⟩, by simp⟩
    refine ⟨g, hg, rel.1, hgns, hgds, ?_⟩
    rw [tick_attempted_eq]
    simp only [hen, if_pos]
    exact List.mem_map.2 ⟨g, List.mem_filter.2 ⟨hg, hgds⟩, rfl⟩

/-- C4 witness: two due-soon records, delivery succeeds for id `b` and
throws for id `a`: `b` ends up flagged, `a` stays unflagged and is
attempted again on the next tick. -/
theorem tick_failure_isolated_witness :
    (∃ g ∈ (checkAndSendNotifications
        ⟨[⟨"a", "HW", 0, "CS", "u", "G", false, false⟩,
          ⟨"b", "HW2", 0, "CS", "u", "G", false, false⟩], ⟨true, 1⟩⟩ 0
        (fun k => k == "b")).items,
      g.id = "b" ∧ g.notificationSent = true) ∧
    (∃ g ∈ (checkAndSendNotifications
        ⟨[⟨"a", "HW", 0, "CS", "u", "G", false, false⟩,
          ⟨"b", "HW2", 0, "CS", "u", "G", false, false⟩], ⟨true, 1⟩⟩ 0
        (fun k => k == "b")).items,
      g.id = "a" ∧ g.notificationSent = false ∧
      dueSoonFilter ⟨true, 1⟩ 0 g = true ∧
      g.id ∈ (checkAndSendNotifications
          ⟨(checkAndSendNotifications
              ⟨[⟨"a", "HW", 0, "CS", "u", "G", false, false⟩,
                ⟨"b", "HW2", 0, "CS", "u", "G", false, false⟩], ⟨true, 1⟩⟩ 0
              (fun k => k == "b")).items, ⟨true, 1⟩⟩ 0
          (fun k => k == "b")).attempted) := by
  constructor
  · exact (tick_failure_isolated
        ⟨[⟨"a", "HW", 0, "CS", "u", "G", false, false⟩,
          ⟨"b", "HW2", 0, "CS", "u", "G", false, false⟩], ⟨true, 1⟩⟩ 0
        (fun k => k == "b") (by decide)).1
      ⟨"b", "HW2", 0, "CS", "u", "G", false, false⟩ (by decide) rfl (by decide) (by decide)
  · exact (tick_failure_isolated
        ⟨[⟨"a", "HW", 0, "CS", "u", "G", false, false⟩,
          ⟨"b", "HW2", 0, "CS", "u", "G", false, false⟩], ⟨true, 1⟩⟩ 0
        (fun k => k == "b") (by decide)).2
      ⟨"a", "HW", 0, "CS", "u", "G", false, false⟩ (by decide) rfl (by decide) (by decide)

/-!
## The date normalizer (`parseDateString`, src/lib/date-parser.js)

The JavaScript `Date` is modelled by its time value: the number of
milliseconds since the epoch, an `Int`.  The local time zone is
abstracted as a fixed zero offset, so local calendar fields and the time
value live in one consistent frame (the claims speak about local
instants).  `new Date(y, mon, d, h, mi, s)` is `jsMakeDate` below, which
follows ECMAScript MakeDay/MakeTime: out-of-range components are linear
offsets, years 0-99 get 1900 added, and the civil-calendar conversion is
the standard proleptic-Gregorian algorithm on floored division.  The
ambient clock `new Date()` is passed in as the parameter `now`, and the
host's `new Date(string)` fallback parser (whose grammar ECMAScript
leaves implementation-defined beyond ISO strings) as the oracle `native`.
`toISOString` throws on an invalid date, which the model reflects by
returning `Except.error ()`; every other code path checks validity with
`isNaN` before converting, and the outer value `Except.ok none` is the
function's `return null`.
-/

/-- Hinnant's `days_from_civil` on floored division: day number of the
proleptic-Gregorian date (month 1-12; the day is a linear offset exactly
like ECMAScript MakeDay). -/
def daysFromCivil (y m d : Int) : Int :=
  let yy := if m ≤ 2 then y - 1 else y
  let era := Int.fdiv yy 400
  let yoe := yy - era * 400
  let mp := Int.emod (m + 9) 12
  let doy := Int.fdiv (153 * mp + 2) 5 + d - 1
  let doe := yoe * 365 + Int.fdiv yoe 4 - Int.fdiv yoe 100 + doy
  era * 146097 + doe - 719468

structure CivilDate where
  year : Int
  month : Int
  day : Int
deriving DecidableEq, Repr

/-- Hinnant's `civil_from_days`: the civil date of a day number. -/
def civilFromDays (z0 : Int) : CivilDate :=
  let z := z0 + 719468
  let era := Int.fdiv z 146097
  let doe := z - era * 146097
  let yoe := Int.fdiv (doe - Int.fdiv doe 1460 + Int.fdiv doe 36524 - Int.fdiv doe 146096) 365
  let y := yoe + era * 400
  let doy := doe - (365 * yoe + Int.fdiv yoe 4 - Int.fdiv yoe 100)
  let mp := Int.fdiv (5 * doy + 2) 153
  let d := doy - Int.fdiv (153 * mp + 2) 5 + 1
  let m := mp + (if mp < 10 then 3 else -9)
  ⟨(if m ≤ 2 then y + 1 else y), m, d⟩

/-- `new Date(y, mon, dom, h, mi, s, ms).getTime()` with `mon` 0-based:
MakeFullYear (years 0-99 become 1900+y), MakeDay (month overflow rolls
the year, the day is a linear offset), MakeTime (plain linear sum). -/
def jsMakeDate (y mon dom h mi s ms : Int) : Int :=
  let yr := if 0 ≤ y ∧ y ≤ 99 then 1900 + y else y
  let ym := yr + Int.fdiv mon 12
  let mn := Int.emod mon 12
  (daysFromCivil ym (mn + 1) dom) * 86400000 + (h * 3600000 + mi * 60000 + s * 1000 + ms)

def jsDayNumber (t : Int) : Int := Int.fdiv t 86400000

/-- `getFullYear()` of a time value. -/
def jsYear (t : Int) : Int := (civilFromDays (jsDayNumber t)).year

/-- `getMonth()` (0-based) of a time value. -/
def jsMonth (t : Int) : Int := (civilFromDays (jsDayNumber t)).month - 1

/-- `getDate()` (day of month) of a time value. -/
def jsDate (t : Int) : Int := (civilFromDays (jsDayNumber t)).day

/-- `setFullYear(y)`: keep month, day of month and time of day. -/
def jsSetFullYear (t y : Int) : Int :=
  let c := civilFromDays (jsDayNumber t)
  (daysFromCivil y c.month c.day) * 86400000 + Int.emod t 86400000

/-- `setHours(23, 59, 59, 999)`: same day at end-of-day. -/
def jsSetHoursEOD (t : Int) : Int :=
  jsDayNumber t * 86400000 + (23 * 3600000 + 59 * 60000 + 59 * 1000 + 999)

/-- `!isNaN(date.getTime())`: a Date is valid iff its time value is
within ±8.64e15 ms of the epoch. -/
def jsValidTime (t : Int) : Bool :=
  decide (-8640000000000000 ≤ t) && decide (t ≤ 8640000000000000)

/-- `new Date(now.getFullYear(), now.getMonth(), now.getDate(), 23, 59, 59)`. -/
def todayEOD (now : Int) : Int :=
  jsMakeDate (jsYear now) (jsMonth now) (jsDate now) 23 59 59 0

/-- Same with `now.getDate() + 1`. -/
def tomorrowEOD (now : Int) : Int :=
  jsMakeDate (jsYear now) (jsMonth now) (jsDate now + 1) 23 59 59 0

/-! ### The cleaning pipeline (step 1 of the normalizer) -/

/-- The characters of the regex class `\s` (ASCII part; the exotic
Unicode members never occur in the claims' inputs). -/
def isWsChar (c : Char) : Bool :=
  c = ' ' || c = '\t' || c = '\n' || c = '\r' || c = '\x0B' || c = '\x0C'

/-- `replace(/due\s*/g, '')` as a left-to-right scan that never rescans
emitted output (the semantics of a global regex replace).  The flag is
`true` while the `\s*` tail of a match is being consumed. -/
def stripDueGo : Bool → List Char → List Char
  | _, [] => []
  | _, 'd' :: 'u' :: 'e' :: rest2 => stripDueGo true rest2
  | skip, c :: rest =>
    if skip && isWsChar c then stripDueGo true rest
    else c :: stripDueGo false rest

/-- `replace(/until\s*/g, '')`, same shape. -/
def stripUntilGo : Bool → List Char → List Char
  | _, [] => []
  | _, 'u' :: 'n' :: 't' :: 'i' :: 'l' :: rest2 => stripUntilGo true rest2
  | skip, c :: rest =>
    if skip && isWsChar c then stripUntilGo true rest
    else c :: stripUntilGo false rest

/-- `replace(/@/g, ' ')`. -/
def atSpace (l : List Char) : List Char :=
  l.map (fun c => if c = '@' then ' ' else c)

/-- `replace(/\s+/g, ' ')`: every maximal whitespace run becomes one
space.  The flag is `true` while inside a run. -/
def collapseWsGo : Bool → List Char → List Char
  | _, [] => []
  | skip, c :: rest =>
    if isWsChar c then
      (if skip then collapseWsGo true rest else ' ' :: collapseWsGo true rest)
    else c :: collapseWsGo false rest

/-- `.trim()`. -/
def jsTrim (l : List Char) : List Char :=
  ((l.dropWhile isWsChar).reverse.dropWhile isWsChar).reverse

/-- Step 1 of `parseDateString`: lower-case, strip `due`/`until` noise,
`@` to space, collapse whitespace, trim. -/
def jsClean (s : List Char) : List Char :=
  jsTrim (collapseWsGo false (atSpace (stripUntilGo false (stripDueGo false
    (s.map Char.toLower)))))

/-- `includes` on character lists. -/
def hasSub (pat l : List Char) : Bool := decide (pat <:+: l)

/-! ### The regex matchers of steps 3 and 4 -/

def isDigitChar (c : Char) : Bool := decide ('0' ≤ c) && decide (c ≤ '9')

def digitVal (c : Char) : Int := (c.toNat : Int) - 48

/-- `parseInt` on an all-digit capture. -/
def parseIntDigits (l : List Char) : Int :=
  l.foldl (fun acc c => acc * 10 + digitVal c) 0

def isWordChar (c : Char) : Bool :=
  (decide ('a' ≤ c) && decide (c ≤ 'z')) || (decide ('A' ≤ c) && decide (c ≤ 'Z')) ||
    isDigitChar c || c = '_'

/-- `\s*(am|pm)` (on the already lower-cased string). -/
def amPmAfter (l : List Char) : Option (Bool × List Char) :=
  match l.dropWhile isWsChar with
  | 'a' :: 'm' :: rest => some (false, rest)
  | 'p' :: 'm' :: rest => some (true, rest)
  | _ => none

/-- `:(\d{2})`. -/
def minutesTail (l : List Char) : Option (Int × List Char) :=
  match l with
  | ':' :: c :: d :: rest =>
      if isDigitChar c && isDigitChar d then some (digitVal c * 10 + digitVal d, rest)
      else none
  | _ => none

/-- `(\d{1,2}):(\d{2})\s*(am|pm)` anchored at the current position,
greedy two-digit hour first (the `\s*` cannot backtrack because `a`/`p`
are not whitespace). -/
def timeMatchAt (l : List Char) : Option (Int × Int × Bool × List Char) :=
  match l with
  | c1 :: rest1 =>
    if isDigitChar c1 then
      (match rest1 with
       | c2 :: rest2 =>
         if isDigitChar c2 then
           match minutesTail rest2 with
           | some (mins, r) =>
             match amPmAfter r with
             | some (pm, rr) => some (digitVal c1 * 10 + digitVal c2, mins, pm, rr)
             | none => none
           | none => none
         else none
       | [] => none)
      <|>
      (match minutesTail rest1 with
       | some (mins, r) =>
         match amPmAfter r with
         | some (pm, rr) => some (digitVal c1, mins, pm, rr)
         | none => none
       | none => none)
    else none
  | [] => none

/-- Leftmost match of the clock-time regex, also returning the text
before and after the match (used by the `replace`). -/
def findTimeMatch : List Char → Option (List Char × Int × Int × Bool × List Char)
  | [] => none
  | c :: rest =>
    match timeMatchAt (c :: rest) with
    | some (h, m, pm, post) => some ([], h, m, pm, post)
    | none =>
      match findTimeMatch rest with
      | some (pre, h, m, pm, post) => some (c :: pre, h, m, pm, post)
      | none => none

/-- `(\d{1,2})` at the end of a pattern: greedy one or two digits. -/
def digits12 (l : List Char) : Option (List Char) :=
  match l with
  | d1 :: rest =>
    if isDigitChar d1 then
      match rest with
      | d2 :: _ => if isDigitChar d2 then some [d1, d2] else some [d1]
      | [] => some [d1]
    else none
  | [] => none

/-- `(\w+),\s*(\w+)\s+(\d{1,2})` anchored at the current position.  A
`\w+` followed by a non-word literal can only match the maximal word
run, so no backtracking is needed. -/
def matchAAt (l : List Char) : Option (List Char × List Char × List Char) :=
  let r1 := l.takeWhile isWordChar
  if r1.isEmpty then none else
  match l.drop r1.length with
  | ',' :: rest2 =>
    let rest3 := rest2.dropWhile isWsChar
    let r2 := rest3.takeWhile isWordChar
    if r2.isEmpty then none else
    (match rest3.drop r2.length with
     | c :: rest4 =>
       if isWsChar c then
         match digits12 ((c :: rest4).dropWhile isWsChar) with
         | some g3 => some (r1, r2, g3)
         | none => none
       else none
     | [] => none)
  | _ => none

def matchFormatA : List Char → Option (List Char × List Char × List Char)
  | [] => none
  | c :: rest =>
    match matchAAt (c :: rest) with
    | some g => some g
    | none => matchFormatA rest

/-- `(\w+)\s+(\d{1,2})` anchored at the current position. -/
def matchBAt (l : List Char) : Option (List Char × List Char) :=
  let r1 := l.takeWhile isWordChar
  if r1.isEmpty then none else
  match l.drop r1.length with
  | c :: rest2 =>
    if isWsChar c then
      match digits12 ((c :: rest2).dropWhile isWsChar) with
      | some g2 => some (r1, g2)
      | none => none
    else none
  | [] => none

def matchFormatB : List Char → Option (List Char × List Char)
  | [] => none
  | c :: rest =>
    match matchBAt (c :: rest) with
    | some g => some g
    | none => matchFormatB rest

/-- The optional `(?:\/(\d{2,4}))?` tail of the `MM/DD` pattern. -/
def matchCYear (l : List Char) : Option (List Char) :=
  match l with
  | '/' :: restY =>
    let yd := restY.takeWhile isDigitChar
    if 2 ≤ yd.length then some (yd.take 4) else none
  | _ => none

/-- `(\d{1,2})\/(\d{1,2})(?:\/(\d{2,4}))?` anchored at the current
position, greedy two digits first. -/
def matchCAt (l : List Char) : Option (List Char × List Char × Option (List Char)) :=
  match l with
  | a :: rest =>
    if isDigitChar a then
      (match rest with
       | b :: '/' :: rest2 =>
         if isDigitChar b then
           match digits12 rest2 with
           | some g2 => some ([a, b], g2, matchCYear (rest2.drop g2.length))
           | none => none
         else none
       | _ => none)
      <|>
      (match rest with
       | '/' :: rest2 =>
         match digits12 rest2 with
         | some g2 => some ([a], g2, matchCYear (rest2.drop g2.length))
         | none => none
       | _ => none)
    else none
  | [] => none

def matchFormatC : List Char → Option (List Char × List Char × Option (List Char))
  | [] => none
  | c :: rest =>
    match matchCAt (c :: rest) with
    | some g => some g
    | none => matchFormatC rest

/-- `(\d{4})-(\d{1,2})-(\d{1,2})` anchored at the current position. -/
def matchDAt (l : List Char) : Option (List Char × List Char × List Char) :=
  match l with
  | a :: b :: c :: d :: '-' :: rest =>
    if isDigitChar a && isDigitChar b && isDigitChar c && isDigitChar d then
      (match rest with
       | m1 :: m2 :: '-' :: rest2 =>
         if isDigitChar m1 && isDigitChar m2 then
           match digits12 rest2 with
           | some g3 => some ([a, b, c, d], [m1, m2], g3)
           | none => none
         else none
       | _ => none)
      <|>
      (match rest with
       | m1 :: '-' :: rest2 =>
         if isDigitChar m1 then
           match digits12 rest2 with
           | some g3 => some ([a, b, c, d], [m1], g3)
           | none => none
         else none
       | _ => none)
    else none
  | _ => none

def matchFormatD : List Char → Option (List Char × List Char × List Char)
  | [] => none
  | c :: rest =>
    match matchDAt (c :: rest) with
    | some g => some g
    | none => matchFormatD rest

/-- The `monthNames` table (0-based months). -/
def monthLookup (w : List Char) : Option Int :=
  if w = "jan".data ∨ w = "january".data then some 0
  else if w = "feb".data ∨ w = "february".data then some 1
  else if w = "mar".data ∨ w = "march".data then some 2
  else if w = "apr".data ∨ w = "april".data then some 3
  else if w = "may".data then some 4
  else if w = "jun".data ∨ w = "june".data then some 5
  else if w = "jul".data ∨ w = "july".data then some 6
  else if w = "aug".data ∨ w = "august".data then some 7
  else if w = "sep".data ∨ w = "september".data then some 8
  else if w = "oct".data ∨ w = "october".data then some 9
  else if w = "nov".data ∨ w = "november".data then some 10
  else if w = "dec".data ∨ w = "december".data then some 11
  else none

/-! ### The format branches of step 4 -/

/-- The month-name branch: reference year, then
`if (date < now) date.setFullYear(year + 1)`. -/
def monthDayDate (now mon d hours minutes : Int) : Int :=
  let year := jsYear now
  let date := jsMakeDate year mon d hours minutes 0 0
  if date < now then jsSetFullYear date (year + 1) else date

/-- `if (date && !isNaN(date.getTime())) return date.toISOString()`,
else fall through to the next format. -/
def validCheck (t : Int) : Option Int := if jsValidTime t then some t else none

def tryFormatA (clean : List Char) (now hours minutes : Int) : Option Int :=
  match matchFormatA clean with
  | some (_g1, g2, g3) =>
    match monthLookup g2 with
    | some mon => validCheck (monthDayDate now mon (parseIntDigits g3) hours minutes)
    | none => none
  | none => none

def tryFormatB (clean : List Char) (now hours minutes : Int) : Option Int :=
  match matchFormatB clean with
  | some (g1, g2) =>
    match monthLookup g1 with
    | some mon => validCheck (monthDayDate now mon (parseIntDigits g2) hours minutes)
    | none => none
  | none => none

/-- The `MM/DD` / `MM/DD/YY(YY)` branch: two-digit years are mapped into
1900/2000, the roll-forward fires only when no year was captured. -/
def tryFormatC (clean : List Char) (now hours minutes : Int) : Option Int :=
  match matchFormatC clean with
  | some (g1, g2, og3) =>
    let month := parseIntDigits g1 - 1
    let day := parseIntDigits g2
    let y0 := match og3 with | some ys => parseIntDigits ys | none => jsYear now
    let year := if y0 < 100 then (if y0 < 50 then y0 + 2000 else y0 + 1900) else y0
    let d0 := jsMakeDate year month day hours minutes 0 0
    let dd := if og3 = none ∧ d0 < now then jsSetFullYear d0 (year + 1) else d0
    validCheck dd
  | none => none

/-- The ISO `YYYY-MM-DD` branch: explicit year, no roll-forward. -/
def tryFormatD (clean : List Char) (hours minutes : Int) : Option Int :=
  match matchFormatD clean with
  | some (g1, g2, g3) =>
    validCheck (jsMakeDate (parseIntDigits g1) (parseIntDigits g2 - 1)
      (parseIntDigits g3) hours minutes 0 0)
  | none => none

/-- Step 5: `new Date(cleanStr)` through the host oracle; on success and
no extracted clock time, `setHours(23,59,59,999)`.  A `toISOString`
throw here is caught by the surrounding try and yields `null`. -/
def nativeStep (native : List Char → Option Int) (clean : List Char) (hadTime : Bool) :
    Option Int :=
  match native clean with
  | some t =>
    if jsValidTime t then
      (let t2 := if hadTime then t else jsSetHoursEOD t
       if jsValidTime t2 then some t2 else none)
    else none
  | none => none

/-- The 12-to-24-hour conversion of step 3. -/
def to24Hours (h12 : Int) (pm : Bool) : Int :=
  let h1 := if pm ∧ h12 ≠ 12 then h12 + 12 else h12
  if ¬ pm ∧ h1 = 12 then 0 else h1

/-- A JavaScript argument value: `parseDateString` accepts anything. -/
inductive JsVal where
  | vNull
  | vUndefined
  | vNumber (n : Int)
  | vStr (s : String)
deriving DecidableEq, Repr

/-- `toISOString()`: throws (RangeError) on an invalid date. -/
def jsToISO (t : Int) : Except Unit (Option Int) :=
  if jsValidTime t then Except.ok (some t) else Except.error ()

/-- `parseDateString` (src/lib/date-parser.js lines 4-156).  `Except.ok`
is a normal return (`some` a time value serialised by `toISOString`,
`none` the `return null`); `Except.error ()` is an uncaught throw, which
only the unguarded `toISOString` of the today/tomorrow branch can
produce. -/
def parseDateString (v : JsVal) (now : Int) (native : List Char → Option Int) :
    Except Unit (Option Int) :=
  match v with
  | JsVal.vStr s =>
    if s.data.isEmpty then Except.ok none
    else
      let cleanA := jsClean s.data
      if hasSub "today".data cleanA then jsToISO (todayEOD now)
      else if hasSub "tomorrow".data cleanA then jsToISO (tomorrowEOD now)
      else
        match findTimeMatch cleanA with
        | some (pre, h12, mins, pm, post) =>
          let hours := to24Hours h12 pm
          let cleanB := jsTrim (pre ++ post)
          Except.ok (tryFormatA cleanB now hours mins <|> tryFormatB cleanB now hours mins <|>
            tryFormatC cleanB now hours mins <|> tryFormatD cleanB hours mins <|>
            nativeStep native cleanB true)
        | none =>
          Except.ok (tryFormatA cleanA now 23 59 <|> tryFormatB cleanA now 23 59 <|>
            tryFormatC cleanA now 23 59 <|> tryFormatD cleanA 23 59 <|>
            nativeStep native cleanA false)
  | _ => Except.ok none

/-! ## Substring-survival lemmas for the cleaning pipeline

The relative-day check `includes('today')` runs on the cleaned string;
these lemmas show that an occurrence of `today`/`tomorrow` in the
lower-cased input survives every cleaning stage (no stage can consume a
character of the occurrence: the removed `due`/`until` matches and the
collapsed whitespace runs cannot overlap it). -/

theorem stripDueGo_cons (skip : Bool) (c : Char) (rest : List Char)
    (hneq : ∀ (rest2 : List Char), c = 'd' → rest = 'u' :: 'e' :: rest2 → False) :
    stripDueGo skip (c :: rest) =
      (if (skip && isWsChar c) = true then stripDueGo true rest
       else c :: stripDueGo false rest) := by
  rw [stripDueGo.eq_def]
  split
  next heq => exact absurd heq (by simp)
  next rest2 heq =>
    obtain ⟨h1, h2⟩ := List.cons.inj heq
    exact (hneq rest2 h1 h2).elim
  next skip2 c2 rest2 hne2 heq =>
    obtain ⟨h1, h2⟩ := List.cons.inj heq
    subst h1
    subst h2
    rfl

theorem stripUntilGo_cons (skip : Bool) (c : Char) (rest : List Char)
    (hneq : ∀ (rest2 : List Char), c = 'u' → rest = 'n' :: 't' :: 'i' :: 'l' :: rest2 → False) :
    stripUntilGo skip (c :: rest) =
      (if (skip && isWsChar c) = true then stripUntilGo true rest
       else c :: stripUntilGo false rest) := by
  rw [stripUntilGo.eq_def]
  split
  next heq => exact absurd heq (by simp)
  next rest2 heq =>
    obtain ⟨h1, h2⟩ := List.cons.inj heq
    exact (hneq rest2 h1 h2).elim
  next skip2 c2 rest2 hne2 heq =>
    obtain ⟨h1, h2⟩ := List.cons.inj heq
    subst h1
    subst h2
    rfl

theorem infix_dropWhile (c0 : Char) (t1 : List Char) (p : Char → Bool)
    (hp : p c0 = false) :
    ∀ l : List Char, (c0 :: t1) <:+: l → (c0 :: t1) <:+: l.dropWhile p := by
  intro l
  induction l with
  | nil => intro h; rw [List.infix_nil] at h; simp at h
  | cons a rest ih =>
      intro h
      by_cases hpa : p a = true
      · rw [List.dropWhile_cons, if_pos hpa]
        rcases List.infix_cons_iff.1 h with hpre | h1
        · obtain ⟨b, hb⟩ := hpre
          have hca : c0 = a := (List.cons.inj hb).1
          rw [← hca, hp] at hpa
          cases hpa
        · exact ih h1
      · rw [List.dropWhile_cons, if_neg hpa]
        exact h

theorem infix_stripDueGo (t2 : List Char)
    (hcomp : ∀ (skip : Bool) (b : List Char),
      stripDueGo skip (('t' :: 'o' :: t2) ++ b) = ('t' :: 'o' :: t2) ++ stripDueGo false b) :
    ∀ (skip : Bool) (l : List Char),
      ('t' :: 'o' :: t2) <:+: l → ('t' :: 'o' :: t2) <:+: stripDueGo skip l := by
  intro skip l
  induction skip, l using stripDueGo.induct with
  | case1 x => intro h; rw [List.infix_nil] at h; simp at h
  | case2 x rest2 ih =>
      intro h
      rcases List.infix_cons_iff.1 h with hpre | h1
      · obtain ⟨b, hb⟩ := hpre
        rw [← hb, hcomp]
        exact (List.prefix_append _ _).isInfix
      · rcases List.infix_cons_iff.1 h1 with hpre | h2
        · obtain ⟨b, hb⟩ := hpre
          simp at hb
        · rcases List.infix_cons_iff.1 h2 with hpre | h3
          · obtain ⟨b, hb⟩ := hpre
            simp at hb
          · have hred : stripDueGo x ('d' :: 'u' :: 'e' :: rest2) = stripDueGo true rest2 := by
              simp [stripDueGo]
            rw [hred]
            exact ih h3
  | case3 skip c rest hneq hws ih =>
      intro h
      rcases List.infix_cons_iff.1 h with hpre | h1
      · obtain ⟨b, hb⟩ := hpre
        rw [← hb, hcomp]
        exact (List.prefix_append _ _).isInfix
      · rw [stripDueGo_cons skip c rest hneq, if_pos hws]
        exact ih h1
  | case4 skip c rest hneq hws ih =>
      intro h
      rcases List.infix_cons_iff.1 h with hpre | h1
      · obtain ⟨b, hb⟩ := hpre
        rw [← hb, hcomp]
        exact (List.prefix_append _ _).isInfix
      · rw [stripDueGo_cons skip c rest hneq, if_neg hws]
        exact List.infix_cons (ih h1)

theorem infix_stripUntilGo (t2 : List Char)
    (hcomp : ∀ (skip : Bool) (b : List Char),
      stripUntilGo skip (('t' :: 'o' :: t2) ++ b) = ('t' :: 'o' :: t2) ++ stripUntilGo false b) :
    ∀ (skip : Bool) (l : List Char),
      ('t' :: 'o' :: t2) <:+: l → ('t' :: 'o' :: t2) <:+: stripUntilGo skip l := by
  intro skip l
  induction skip, l using stripUntilGo.induct with
  | case1 x => intro h; rw [List.infix_nil] at h; simp at h
  | case2 x rest2 ih =>
      intro h
      rcases List.infix_cons_iff.1 h with hpre | h1
      · obtain ⟨b, hb⟩ := hpre
        rw [← hb, hcomp]
        exact (List.prefix_append _ _).isInfix
      · rcases List.infix_cons_iff.1 h1 with hpre | h2
        · obtain ⟨b, hb⟩ := hpre
          simp at hb
        · rcases List.infix_cons_iff.1 h2 with hpre | h3
          · obtain ⟨b, hb⟩ := hpre
            simp at hb
          · rcases List.infix_cons_iff.1 h3 with hpre | h4
            · obtain ⟨b, hb⟩ := hpre
              simp at hb
            · rcases List.infix_cons_iff.1 h4 with hpre | h5
              · obtain ⟨b, hb⟩ := hpre
                simp at hb
              · have hred : stripUntilGo x ('u' :: 'n' :: 't' :: 'i' :: 'l' :: rest2) =
                    stripUntilGo true rest2 := by
                  simp [stripUntilGo]
                rw [hred]
                exact ih h5
  | case3 skip c rest hneq hws ih =>
      intro h
      rcases List.infix_cons_iff.1 h with hpre | h1
      · obtain ⟨b, hb⟩ := hpre
        rw [← hb, hcomp]
        exact (List.prefix_append _ _).isInfix
      · rw [stripUntilGo_cons skip c rest hneq, if_pos hws]
        exact ih h1
  | case4 skip c rest hneq hws ih =>
      intro h
      rcases List.infix_cons_iff.1 h with hpre | h1
      · obtain ⟨b, hb⟩ := hpre
        rw [← hb, hcomp]
        exact (List.prefix_append _ _).isInfix
      · rw [stripUntilGo_cons skip c rest hneq, if_neg hws]
        exact List.infix_cons (ih h1)

theorem infix_atSpace (t : List Char) (hat : atSpace t = t) :
    ∀ l : List Char, t <:+: l → t <:+: atSpace l := by
  intro l h
  obtain ⟨u, v, huv⟩ := h
  refine ⟨atSpace u, atSpace v, ?_⟩
  rw [← huv]
  unfold atSpace
  rw [List.map_append, List.map_append]
  rw [show (t.map fun c => if c = '@' then ' ' else c) = t from hat]

theorem infix_collapseWsGo (t2 : List Char)
    (hcomp : ∀ (skip : Bool) (b : List Char),
      collapseWsGo skip (('t' :: 'o' :: t2) ++ b) = ('t' :: 'o' :: t2) ++ collapseWsGo false b) :
    ∀ (l : List Char) (skip : Bool),
      ('t' :: 'o' :: t2) <:+: l → ('t' :: 'o' :: t2) <:+: collapseWsGo skip l := by
  intro l
  induction l with
  | nil => intro skip h; rw [List.infix_nil] at h; simp at h
  | cons c rest ih =>
      intro skip h
      rcases List.infix_cons_iff.1 h with hpre | h1
      · obtain ⟨b, hb⟩ := hpre
        rw [← hb, hcomp]
        exact (List.prefix_append _ _).isInfix
      · by_cases hc : isWsChar c = true
        · by_cases hskip : skip = true
          · simp only [collapseWsGo, hc, if_true, hskip]
            exact ih true h1
          · have hskip' : skip = false := by rwa [Bool.not_eq_true] at hskip
            simp only [collapseWsGo, hc, if_true, hskip', Bool.false_eq_true, if_false]
            exact List.infix_cons (ih true h1)
        · simp only [collapseWsGo, hc, Bool.false_eq_true, if_false]
          exact List.infix_cons (ih false h1)

theorem infix_jsTrim (c0 : Char) (t1 : List Char) (hp : isWsChar c0 = false)
    (c1 : Char) (t3 : List Char) (hrev : (c0 :: t1).reverse = c1 :: t3)
    (hq : isWsChar c1 = false) (l : List Char)
    (h : (c0 :: t1) <:+: l) : (c0 :: t1) <:+: jsTrim l := by
  unfold jsTrim
  have s1 : (c0 :: t1) <:+: l.dropWhile isWsChar := infix_dropWhile c0 t1 isWsChar hp l h
  have s2 : (c0 :: t1).reverse <:+: (l.dropWhile isWsChar).reverse := List.reverse_infix.2 s1
  rw [hrev] at s2
  have s3 : (c1 :: t3) <:+: ((l.dropWhile isWsChar).reverse.dropWhile isWsChar) :=
    infix_dropWhile c1 t3 isWsChar hq _ s2
  have s4 := List.reverse_infix.2 s3
  rw [← hrev, List.reverse_reverse] at s4
  exact s4

/-- An occurrence of `today` in the lower-cased input survives the whole
cleaning pipeline. -/
theorem today_infix_jsClean (s : List Char)
    (h : ['t', 'o', 'd', 'a', 'y'] <:+: s.map Char.toLower) :
    ['t', 'o', 'd', 'a', 'y'] <:+: jsClean s := by
  unfold jsClean
  refine infix_jsTrim 't' ['o', 'd', 'a', 'y'] (by decide) 'y' ['a', 'd', 'o', 't']
    (by decide) (by decide) _ ?_
  refine infix_collapseWsGo ['d', 'a', 'y'] ?_ _ false ?_
  · intro skip b
    cases skip <;> simp [collapseWsGo, isWsChar]
  refine infix_atSpace ['t', 'o', 'd', 'a', 'y'] (by decide) _ ?_
  refine infix_stripUntilGo ['d', 'a', 'y'] ?_ false _ ?_
  · intro skip b
    cases skip <;> simp [stripUntilGo, isWsChar]
  refine infix_stripDueGo ['d', 'a', 'y'] ?_ false _ ?_
  · intro skip b
    cases skip <;> simp [stripDueGo, isWsChar]
  exact h

/-- Likewise for `tomorrow`. -/
theorem tomorrow_infix_jsClean (s : List Char)
    (h : ['t', 'o', 'm', 'o', 'r', 'r', 'o', 'w'] <:+: s.map Char.toLower) :
    ['t', 'o', 'm', 'o', 'r', 'r', 'o', 'w'] <:+: jsClean s := by
  unfold jsClean
  refine infix_jsTrim 't' ['o', 'm', 'o', 'r', 'r', 'o', 'w'] (by decide) 'w'
    ['o', 'r', 'r', 'o', 'm', 'o', 't'] (by decide) (by decide) _ ?_
  refine infix_collapseWsGo ['m', 'o', 'r', 'r', 'o', 'w'] ?_ _ false ?_
  · intro skip b
    cases skip <;> simp [collapseWsGo, isWsChar]
  refine infix_atSpace ['t', 'o', 'm', 'o', 'r', 'r', 'o', 'w'] (by decide) _ ?_
  refine infix_stripUntilGo ['m', 'o', 'r', 'r', 'o', 'w'] ?_ false _ ?_
  · intro skip b
    cases skip <;> simp [stripUntilGo, isWsChar]
  refine infix_stripDueGo ['m', 'o', 'r', 'r', 'o', 'w'] ?_ false _ ?_
  · intro skip b
    cases skip <;> simp [stripDueGo, isWsChar]
  exact h

/-! ## C6: relative-day literals -/

/-- C6 counterexample: the claim says a clock time in the fragment
overrides the 23:59:59 default for `today`/`tomorrow`.  The code returns
from the `today` branch before the clock time is even extracted: with the
reference instant 2025-06-01T00:00:00, the fragment `today 5:00 pm`
normalizes to 2025-06-01T23:59:59, not to the claimed 17:00 instant. -/
theorem parseDateString_today_ignores_clock_time :
    parseDateString (JsVal.vStr "today 5:00 pm") 1748736000000 (fun _ => none) =
      Except.ok (some (jsMakeDate 2025 5 1 23 59 59 0)) ∧
    jsMakeDate 2025 5 1 23 59 59 0 ≠ jsMakeDate 2025 5 1 17 0 0 0 := by
  constructor
  · rfl
  · decide

/-- C6 (amended): for every fragment containing (case-insensitively) the
literal `today` (resp. `tomorrow`, when the cleaned fragment does not
also contain `today`), normalization yields the reference date (resp.
reference date + 1 day) at 23:59:59 local time — `todayEOD` /
`tomorrowEOD` are `new Date(getFullYear(), getMonth(), getDate() (+ 1),
23, 59, 59)` — regardless of any clock time in the fragment; a clock
time does not override this default. -/
theorem parseDateString_relative_day (s : String) (now : Int)
    (native : List Char → Option Int) :
    (['t', 'o', 'd', 'a', 'y'] <:+: s.data.map Char.toLower →
      parseDateString (JsVal.vStr s) now native = jsToISO (todayEOD now)) ∧
    (['t', 'o', 'm', 'o', 'r', 'r', 'o', 'w'] <:+: s.data.map Char.toLower →
      hasSub "today".data (jsClean s.data) = false →
      parseDateString (JsVal.vStr s) now native = jsToISO (tomorrowEOD now)) := by
  constructor
  · intro h
    have hne : s.data.isEmpty = false := by
      cases hs : s.data with
      | nil => rw [hs] at h; simp at h
      | cons a l => simp [List.isEmpty]
    have hhas : hasSub "today".data (jsClean s.data) = true := by
      unfold hasSub
      simp only [decide_eq_true_eq]
      exact today_infix_jsClean s.data h
    simp only [parseDateString, hne, Bool.false_eq_true, if_false, hhas, if_true]
  · intro h hno
    have hne : s.data.isEmpty = false := by
      cases hs : s.data with
      | nil => rw [hs] at h; simp at h
      | cons a l => simp [List.isEmpty]
    have hhas : hasSub "tomorrow".data (jsClean s.data) = true := by
      unfold hasSub
      simp only [decide_eq_true_eq]
      exact tomorrow_infix_jsClean s.data h
    simp only [parseDateString, hne, Bool.false_eq_true, if_false, hno, hhas, if_true]

/-- C6 witness: the amended claim at the concrete fragments `today 5:00
pm` and `Tomorrow` with reference instant 0. -/
theorem parseDateString_relative_day_witness :
    parseDateString (JsVal.vStr "today 5:00 pm") 0 (fun _ => none) =
      jsToISO (todayEOD 0) ∧
    parseDateString (JsVal.vStr "Tomorrow") 0 (fun _ => none) =
      jsToISO (tomorrowEOD 0) := by
  constructor
  · exact (parseDateString_relative_day "today 5:00 pm" 0 (fun _ => none)).1 (by decide)
  · exact (parseDateString_relative_day "Tomorrow" 0 (fun _ => none)).2 (by decide) (by decide)

/-! ## C7: past-date roll-forward -/

/-- C7: year inference for fragments without an explicit year.
(1) When the cleaned fragment is in month-name/day shape (the code's own
format-B matcher, after formats with higher precedence fail), the result
is `monthDayDate`: the reference year, rolled forward by one exactly when
the resulting instant is strictly before `referenceNow` (conjunct 2).
(3) The `MM/DD` shape without a captured year behaves the same way.
(4) A fragment with an explicit year (`MM/DD/YY(YY)`) is never rolled:
its result does not depend on `referenceNow` at all.
(5) `normalize("Jan 1")` at reference instant 2025-06-01T00:00:00 yields
2026-01-01 at the 23:59 end-of-day default (Jan 1 2025 is already past). -/
theorem parseDateString_roll_forward :
    (∀ (s : String) (now : Int) (native : List Char → Option Int)
        (g1 g2 : List Char) (mon : Int),
      s.data.isEmpty = false →
      hasSub "today".data (jsClean s.data) = false →
      hasSub "tomorrow".data (jsClean s.data) = false →
      findTimeMatch (jsClean s.data) = none →
      matchFormatA (jsClean s.data) = none →
      matchFormatB (jsClean s.data) = some (g1, g2) →
      monthLookup g1 = some mon →
      jsValidTime (monthDayDate now mon (parseIntDigits g2) 23 59) = true →
      parseDateString (JsVal.vStr s) now native =
        Except.ok (some (monthDayDate now mon (parseIntDigits g2) 23 59))) ∧
    (∀ (now mon d h mi : Int),
      (jsMakeDate (jsYear now) mon d h mi 0 0 < now →
        monthDayDate now mon d h mi =
          jsSetFullYear (jsMakeDate (jsYear now) mon d h mi 0 0) (jsYear now + 1)) ∧
      (now ≤ jsMakeDate (jsYear now) mon d h mi 0 0 →
        monthDayDate now mon d h mi = jsMakeDate (jsYear now) mon d h mi 0 0)) ∧
    (∀ (clean : List Char) (now h mi : Int) (g1 g2 : List Char),
      matchFormatC clean = some (g1, g2, none) → 100 ≤ jsYear now →
      tryFormatC clean now h mi = validCheck
        (if jsMakeDate (jsYear now) (parseIntDigits g1 - 1) (parseIntDigits g2) h mi 0 0 < now
         then jsSetFullYear
           (jsMakeDate (jsYear now) (parseIntDigits g1 - 1) (parseIntDigits g2) h mi 0 0)
           (jsYear now + 1)
         else jsMakeDate (jsYear now) (parseIntDigits g1 - 1) (parseIntDigits g2) h mi 0 0)) ∧
    (∀ (clean : List Char) (now now2 h mi : Int) (g1 g2 ys : List Char),
      matchFormatC clean = some (g1, g2, some ys) →
      tryFormatC clean now h mi = tryFormatC clean now2 h mi) ∧
    parseDateString (JsVal.vStr "Jan 1") 1748736000000 (fun _ => none) =
      Except.ok (some (jsMakeDate 2026 0 1 23 59 0 0)) := by
  refine ⟨?_, ?_, ?_, ?_, by rfl⟩
  · intro s now native g1 g2 mon hne hto hmo htime hA hB hmon hvalid
    have ha : tryFormatA (jsClean s.data) now 23 59 = none := by
      simp [tryFormatA, hA]
    have hb : tryFormatB (jsClean s.data) now 23 59 =
        some (monthDayDate now mon (parseIntDigits g2) 23 59) := by
      simp [tryFormatB, hB, hmon, validCheck, hvalid]
    simp only [parseDateString, hne, Bool.false_eq_true, if_false, hto, hmo, htime,
      ha, hb, Option.none_orElse, Option.some_orElse]
  · intro now mon d h mi
    constructor
    · intro hlt
      unfold monthDayDate
      rw [if_pos hlt]
    · intro hge
      unfold monthDayDate
      rw [if_neg (not_lt.2 hge)]
  · intro clean now h mi g1 g2 hmatch h100
    have hy : ¬ jsYear now < 100 := by omega
    simp [tryFormatC, hmatch, hy]
  · intro clean now now2 h mi g1 g2 ys hmatch
    simp [tryFormatC, hmatch]

/-- C7 witness: `Jan 1` against reference instant 2025-06-01T00:00:00
through the full pipeline, and the two directions of the roll-forward
condition at concrete instants. -/
theorem parseDateString_roll_forward_witness :
    parseDateString (JsVal.vStr "Jan 1") 1748736000000 (fun _ => none) =
      Except.ok (some (monthDayDate 1748736000000 0 1 23 59)) ∧
    monthDayDate 1748736000000 0 1 23 59 =
      jsSetFullYear (jsMakeDate 2025 0 1 23 59 0 0) 2026 ∧
    monthDayDate 1748736000000 11 25 23 59 = jsMakeDate 2025 11 25 23 59 0 0 := by
  refine ⟨?_, ?_, ?_⟩
  · exact parseDateString_roll_forward.1 "Jan 1" 1748736000000 (fun _ => none)
      ['j', 'a', 'n'] ['1'] 0 rfl (by decide) (by decide) rfl rfl rfl rfl (by decide)
  · have h := (parseDateString_roll_forward.2.1 1748736000000 0 1 23 59).1 (by decide)
    rw [h]
    decide
  · have h := (parseDateString_roll_forward.2.1 1748736000000 11 25 23 59).2 (by decide)
    rw [h]
    decide

/-! ## C10: totality of the date normalizer -/

theorem validCheck_some (t u : Int) (h : validCheck t = some u) : jsValidTime u = true := by
  unfold validCheck at h
  by_cases hv : jsValidTime t = true
  · rw [if_pos hv] at h
    cases h
    exact hv
  · rw [if_neg hv] at h
    cases h

theorem tryFormatA_some (clean : List Char) (now h m t : Int)
    (hh : tryFormatA clean now h m = some t) : jsValidTime t = true := by
  unfold tryFormatA at hh
  split at hh
  · split at hh
    · exact validCheck_some _ _ hh
    · cases hh
  · cases hh

theorem tryFormatB_some (clean : List Char) (now h m t : Int)
    (hh : tryFormatB clean now h m = some t) : jsValidTime t = true := by
  unfold tryFormatB at hh
  split at hh
  · split at hh
    · exact validCheck_some _ _ hh
    · cases hh
  · cases hh

theorem tryFormatC_some (clean : List Char) (now h m t : Int)
    (hh : tryFormatC clean now h m = some t) : jsValidTime t = true := by
  unfold tryFormatC at hh
  split at hh
  · exact validCheck_some _ _ hh
  · cases hh

theorem tryFormatD_some (clean : List Char) (h m t : Int)
    (hh : tryFormatD clean h m = some t) : jsValidTime t = true := by
  unfold tryFormatD at hh
  split at hh
  · exact validCheck_some _ _ hh
  · cases hh

theorem nativeStep_some (native : List Char → Option Int) (clean : List Char)
    (hadTime : Bool) (t : Int) (hh : nativeStep native clean hadTime = some t) :
    jsValidTime t = true := by
  unfold nativeStep at hh
  split at hh
  · split at hh
    · split at hh <;> (dsimp only at hh; split at hh <;> simp_all)
    · cases hh
  · cases hh

/-- Every value the format-and-fallback chain of step 4/5 returns is a
valid instant (each branch checks `isNaN` before `toISOString`). -/
theorem formatsChain_valid (clean : List Char) (now h m : Int)
    (native : List Char → Option Int) (hadTime : Bool) :
    (tryFormatA clean now h m <|> tryFormatB clean now h m <|> tryFormatC clean now h m <|>
      tryFormatD clean h m <|> nativeStep native clean hadTime) = none ∨
    ∃ t, (tryFormatA clean now h m <|> tryFormatB clean now h m <|> tryFormatC clean now h m <|>
      tryFormatD clean h m <|> nativeStep native clean hadTime) = some t ∧
      jsValidTime t = true := by
  cases hA : tryFormatA clean now h m with
  | some t =>
      right
      exact ⟨t, by simp [hA], tryFormatA_some _ _ _ _ _ hA⟩
  | none =>
      simp only [hA, Option.none_orElse]
      cases hB : tryFormatB clean now h m with
      | some t =>
          right
          exact ⟨t, by simp, tryFormatB_some _ _ _ _ _ hB⟩
      | none =>
          simp only [Option.none_orElse]
          cases hC : tryFormatC clean now h m with
          | some t =>
              right
              exact ⟨t, by simp, tryFormatC_some _ _ _ _ _ hC⟩
          | none =>
              simp only [Option.none_orElse]
              cases hD : tryFormatD clean h m with
              | some t =>
                  right
                  exact ⟨t, by simp, tryFormatD_some _ _ _ _ hD⟩
              | none =>
                  simp only [Option.none_orElse]
                  cases hN : nativeStep native clean hadTime with
                  | some t =>
                      right
                      exact ⟨t, rfl, nativeStep_some _ _ _ _ hN⟩
                  | none => exact Or.inl rfl

/-- C10: `parseDateString` is total on arbitrary input: every non-string
argument (null, undefined, a number) and the empty string return `null`
without raising, and on every string it returns normally with either
`null` or a valid instant, provided the ambient clock is such that the
end of today and of tomorrow are representable instants (the only
unguarded `toISOString` sits in the today/tomorrow branch, and the claim
quantifies over inputs, not over clock states reachable only ±273000
years from now). -/
theorem parseDateString_total :
    (∀ (now : Int) (native : List Char → Option Int),
      parseDateString JsVal.vNull now native = Except.ok none ∧
      parseDateString JsVal.vUndefined now native = Except.ok none ∧
      (∀ n : Int, parseDateString (JsVal.vNumber n) now native = Except.ok none) ∧
      parseDateString (JsVal.vStr "") now native = Except.ok none) ∧
    (∀ (s : String) (now : Int) (native : List Char → Option Int),
      jsValidTime (todayEOD now) = true → jsValidTime (tomorrowEOD now) = true →
      ∃ r : Option Int, parseDateString (JsVal.vStr s) now native = Except.ok r ∧
        (r = none ∨ ∃ t, r = some t ∧ jsValidTime t = true)) := by
  constructor
  · intro now native
    exact ⟨rfl, rfl, fun n => rfl, rfl⟩
  · intro s now native hvt hvm
    by_cases hne : s.data.isEmpty = true
    · refine ⟨none, ?_, Or.inl rfl⟩
      simp [parseDateString, hne]
    · have hne' : s.data.isEmpty = false := by rwa [Bool.not_eq_true] at hne
      by_cases hto : hasSub "today".data (jsClean s.data) = true
      · refine ⟨some (todayEOD now), ?_, Or.inr ⟨_, rfl, hvt⟩⟩
        simp [parseDateString, hne', hto, jsToISO, hvt]
      · have hto' : hasSub "today".data (jsClean s.data) = false := by
          rwa [Bool.not_eq_true] at hto
        by_cases hmo : hasSub "tomorrow".data (jsClean s.data) = true
        · refine ⟨some (tomorrowEOD now), ?_, Or.inr ⟨_, rfl, hvm⟩⟩
          simp [parseDateString, hne', hto', hmo, jsToISO, hvm]
        · have hmo' : hasSub "tomorrow".data (jsClean s.data) = false := by
            rwa [Bool.not_eq_true] at hmo
          cases htm : findTimeMatch (jsClean s.data) with
          | some q =>
              obtain ⟨pre, h12, mins, pm, post⟩ := q
              rcases formatsChain_valid (jsTrim (pre ++ post)) now (to24Hours h12 pm) mins
                  native true with hc | ⟨t, hc, hv⟩
              · refine ⟨none, ?_, Or.inl rfl⟩
                simp only [parseDateString, hne', Bool.false_eq_true, if_false, hto', hmo',
                  htm, hc]
              · refine ⟨some t, ?_, Or.inr ⟨t, rfl, hv⟩⟩
                simp only [parseDateString, hne', Bool.false_eq_true, if_false, hto', hmo',
                  htm, hc]
          | none =>
              rcases formatsChain_valid (jsClean s.data) now 23 59 native false with
                hc | ⟨t, hc, hv⟩
              · refine ⟨none, ?_, Or.inl rfl⟩
                simp only [parseDateString, hne', Bool.false_eq_true, if_false, hto', hmo',
                  htm, hc]
              · refine ⟨some t, ?_, Or.inr ⟨t, rfl, hv⟩⟩
                simp only [parseDateString, hne', Bool.false_eq_true, if_false, hto', hmo',
                  htm, hc]

/-- C10 witness: the totality statement at concrete inputs (a garbage
string, a parseable string, and the non-string values) with the sane
clock instant 0. -/
theorem parseDateString_total_witness :
    parseDateString JsVal.vNull 0 (fun _ => none) = Except.ok none ∧
    (∃ r : Option Int,
      parseDateString (JsVal.vStr "garbage-not-a-date") 0 (fun _ => none) = Except.ok r ∧
        (r = none ∨ ∃ t, r = some t ∧ jsValidTime t = true)) ∧
    (∃ r : Option Int,
      parseDateString (JsVal.vStr "Dec 25") 0 (fun _ => none) = Except.ok r ∧
        (r = none ∨ ∃ t, r = some t ∧ jsValidTime t = true)) := by
  refine ⟨(parseDateString_total.1 0 (fun _ => none)).1, ?_, ?_⟩
  · exact parseDateString_total.2 "garbage-not-a-date" 0 (fun _ => none) (by decide) (by decide)
  · exact parseDateString_total.2 "Dec 25" 0 (fun _ => none) (by decide) (by decide)

end DueDates
